import Mathlib

/-!
# jfbv — geometry planning, pixel conversion, alpha blending and compositing

A shallow embedding of `src/jfbv.c`.

Conventions of the embedding

* `unsigned int` values are natural numbers; every arithmetic operation the C code performs
  on them is followed by an explicit reduction modulo `2^32` (`u32`, `usub`, `toU32`).
* `int` values (`rotate`, `scaling`, `xpan`, `ypan`, `clr`) are integers.
* The C `float` values `scale1`, `scale2`, `scale` are modelled by exact non-negative
  rationals, kept as a numerator/denominator pair (`Scale`); their rational value is
  `Scale.val`.  The conversion of a positive float to `unsigned int` is the floor.  The
  planner and the row selection of the decode loop compute with these exact values; the
  column sampling of the conversion loop is computed in single precision (`f32`,
  `scaleUp32`).
* Memory (`fbm`, `bp`) is a map from byte offsets to bytes.
* The `int` loop counters and offsets of the rotation routines are exact natural numbers
  (signed overflow is undefined in C).
* `jfbv` is `main` for a run in which the file, the JPEG decoder, the allocations and the
  framebuffer device report no error; a run that stores outside the mapped framebuffer has
  no exit status.
-/

namespace Jfbv

/-! ## Machine arithmetic -/

/-- Reduction of a natural number to the range of `unsigned int`. -/
def u32 (n : Nat) : Nat := n % 4294967296

/-- Subtraction of two `unsigned int` values, as C computes it. -/
def usub (a b : Nat) : Nat := (a + 4294967296 - b % 4294967296) % 4294967296

/-- Conversion of a (signed) integer to `unsigned int`. -/
def toU32 (z : Int) : Nat := (z % 4294967296).toNat

/-- The C library function `abs` on an `int` other than `INT_MIN`. -/
def cabs (x : Int) : Int := if x < 0 then -x else x

/-! ## Geometry planning (`main`, lines 322–439) -/

/-- A value of the C type `float`, modelled exactly as the rational `num / den`. -/
structure Scale where
  num : Nat
  den : Nat
deriving DecidableEq

/-- The rational value of a scale factor. -/
def Scale.val (s : Scale) : ℚ := (s.num : ℚ) / (s.den : ℚ)

/-- The scale computation of lines 327–340 and 383–396:
`scale1 = image_width / (float) axisX; scale2 = image_height / (float) axisY;`
`scale = scale1 > scale2 ? scale1 : scale2; if (scale < 1.0) scale = 1.0;`
and `scale = 1.0` when `scaling != 0`. -/
def fitScale (scaling : Int) (image_width image_height axisX axisY : Nat) : Scale :=
  if scaling = 0 then
    let scale1 : Scale := ⟨image_width, axisX⟩
    let scale2 : Scale := ⟨image_height, axisY⟩
    -- scale1 > scale2, compared by cross multiplication
    let scale : Scale := if scale1.num * scale2.den > scale2.num * scale1.den then scale1 else scale2
    -- scale < 1.0
    if scale.num < scale.den then ⟨1, 1⟩ else scale
  else
    ⟨1, 1⟩

/-- The statement `(float) n / scale` converted to `unsigned int` (lines 343–344, 399–400). -/
def scaleDown (n : Nat) (scale : Scale) : Nat := u32 (n * scale.den / scale.num)

/-- The pan adjustment `abs(pan) > m ? (int) m * (pan / abs(pan)) : pan`; the comparison is
between an `int` and an `unsigned int`, hence unsigned. -/
def clampPan (pan : Int) (m : Nat) : Int :=
  if toU32 (cabs pan) > m then (m : Int) * Int.tdiv pan (cabs pan) else pan

/-- What one of the four centre-or-crop blocks computes for one axis. -/
structure AxisPlacement where
  /-- The offset into the framebuffer (`ox` or `oy`). -/
  offset : Nat
  /-- The first sampled source position (`scanline_offset` or `start_scanline`). -/
  sample : Nat
  /-- The adjusted pan (`xpan` or `ypan`). -/
  pan : Int
  /-- The bitmap axis after clipping (`bitmap_width` or `bitmap_height`). -/
  extent : Nat
deriving DecidableEq

/-- One centre-or-crop block (lines 347–361, 364–378, 403–417, 420–434).  The four blocks of
the source are this text with the variables renamed:
`if (bitmap < fb) { o = (fb - bitmap) / 2; s = 0; pan = clamp; o += pan; }`
`else { o = 0; s = (bitmap - fb) / 2; pan = clamp; s += pan; bitmap = fb; }`. -/
def placeAxis (bitmapAxis fbAxis : Nat) (pan : Int) : AxisPlacement :=
  if bitmapAxis < fbAxis then
    let o := usub fbAxis bitmapAxis / 2
    let pan1 := clampPan pan o
    { offset := toU32 ((o : Int) + pan1), sample := 0, pan := pan1, extent := bitmapAxis }
  else
    let s := usub bitmapAxis fbAxis / 2
    let pan1 := clampPan pan s
    { offset := 0, sample := toU32 ((s : Int) + pan1), pan := pan1, extent := fbAxis }

/-- The variables set by the geometry switch. -/
structure Geometry where
  scale : Scale
  bitmap_width : Nat
  bitmap_height : Nat
  ox : Nat
  oy : Nat
  scanline_offset : Nat
  start_scanline : Nat
  xpan : Int
  ypan : Int
deriving DecidableEq

/-- The part of the geometry switch below the scale computation, for rotation 1 and 3:
`bitmap_height` is compared with `fb_maxx` and `bitmap_width` with `fb_maxy`. -/
def geometry13 (scale : Scale) (xpan ypan : Int)
    (image_width image_height fb_maxx fb_maxy : Nat) : Geometry :=
  let bitmap_width := scaleDown image_width scale
  let bitmap_height := scaleDown image_height scale
  let px := placeAxis bitmap_height fb_maxx xpan
  let py := placeAxis bitmap_width fb_maxy ypan
  { scale := scale, bitmap_width := py.extent, bitmap_height := px.extent,
    ox := px.offset, oy := py.offset,
    scanline_offset := py.sample, start_scanline := px.sample,
    xpan := px.pan, ypan := py.pan }

/-- The part of the geometry switch below the scale computation, for rotation 0 and 2. -/
def geometry02 (scale : Scale) (xpan ypan : Int)
    (image_width image_height fb_maxx fb_maxy : Nat) : Geometry :=
  let bitmap_width := scaleDown image_width scale
  let bitmap_height := scaleDown image_height scale
  let px := placeAxis bitmap_width fb_maxx xpan
  let py := placeAxis bitmap_height fb_maxy ypan
  { scale := scale, bitmap_width := px.extent, bitmap_height := py.extent,
    ox := px.offset, oy := py.offset,
    scanline_offset := px.sample, start_scanline := py.sample,
    xpan := px.pan, ypan := py.pan }

/-- The geometry switch `switch(rotate)` of lines 322–439; `none` is the `default:` branch,
which prints `Unknown rotation` and exits with status 1. -/
def planGeometry (rotate scaling xpan ypan : Int)
    (image_width image_height fb_maxx fb_maxy : Nat) : Option Geometry :=
  if rotate = 1 ∨ rotate = 3 then
    some (geometry13 (fitScale scaling image_width image_height fb_maxy fb_maxx)
      xpan ypan image_width image_height fb_maxx fb_maxy)
  else if rotate = 0 ∨ rotate = 2 then
    some (geometry02 (fitScale scaling image_width image_height fb_maxx fb_maxy)
      xpan ypan image_width image_height fb_maxx fb_maxy)
  else
    none

/-- The dimensions `(fb_bitmap_width, fb_bitmap_height)` set by the rotation dispatch of
lines 522–551. -/
def finalDims (rotate : Int) (bitmap_width bitmap_height : Nat) : Nat × Nat :=
  if rotate = 1 then (bitmap_height, bitmap_width)
  else if rotate = 2 then (bitmap_width, bitmap_height)
  else if rotate = 3 then (bitmap_height, bitmap_width)
  else (bitmap_width, bitmap_height)

/-- The logical target axes the source is compared with: `(fb_maxy, fb_maxx)` for rotation
1 and 3, `(fb_maxx, fb_maxy)` otherwise. -/
def logicalAxes (rotate : Int) (fb_maxx fb_maxy : Nat) : Nat × Nat :=
  if rotate = 1 ∨ rotate = 3 then (fb_maxy, fb_maxx) else (fb_maxx, fb_maxy)

/-- The scaled bitmap axes before clipping, in target orientation: the first is the axis the
planner compares with `fb_maxx` (`bitmap_width` for rotation 0 and 2, `bitmap_height` for
rotation 1 and 3), the second the axis it compares with `fb_maxy`. -/
def scaledAxes (rotate : Int) (scale : Scale) (image_width image_height : Nat) : Nat × Nat :=
  finalDims rotate (scaleDown image_width scale) (scaleDown image_height scale)

/-- The sample offsets of a plan, in target orientation: the first belongs to the axis
compared with `fb_maxx` (`scanline_offset` for rotation 0 and 2, `start_scanline` for rotation
1 and 3), the second to the axis compared with `fb_maxy`. -/
def sampleOffsets (rotate : Int) (g : Geometry) : Nat × Nat :=
  if rotate = 1 ∨ rotate = 3 then (g.start_scanline, g.scanline_offset)
  else (g.scanline_offset, g.start_scanline)

/-- The margin of one axis: the centring offset `(fbAxis - bitmapAxis) / 2` when the bitmap
axis is shorter than the target axis, the discarded margin `(bitmapAxis - fbAxis) / 2`
otherwise. -/
def margin (bitmapAxis fbAxis : Nat) : Nat :=
  if bitmapAxis < fbAxis then (fbAxis - bitmapAxis) / 2 else (bitmapAxis - fbAxis) / 2

/-! ## Alpha blending (`alphamix`, lines 170–179) -/

/-- The function `alphamix`; every `unsigned int` operation is reduced modulo `2^32`. -/
def alphamix (bg src a : Nat) : Nat :=
  let rb := u32 (u32 ((src &&& 0x00ff00ff) * a) + u32 ((bg &&& 0x00ff00ff) * usub 0xff a))
    &&& 0xff00ff00
  let g := u32 (u32 ((src &&& 0x0000ff00) * a) + u32 ((bg &&& 0x0000ff00) * usub 0xff a))
    &&& 0x00ff0000
  (src &&& 0xff000000) ||| ((rb ||| g) >>> 8)

/-- Byte `k` of a packed pixel: bits `8k .. 8k+7`. -/
def channel (x k : Nat) : Nat := x / 2 ^ (8 * k) % 256

/-! ## Pixel conversion (`main`, lines 491–510) -/

/-- The two bytes written for one pixel of a 16 bit framebuffer (lines 506–507), from the
`unsigned char` values `Red`, `Green`, `Blue`; each is stored into an `unsigned char`. -/
def encode565 (Red Green Blue : Nat) : Nat × Nat :=
  ((((Green <<< 3) &&& 0xe0) ||| ((Blue >>> 3) &&& 0x1f)) % 256,
   ((Red &&& 0xf8) ||| ((Green >>> 5) &&& 0x07)) % 256)

/-! ## Compositing (`main`, lines 567–591) -/

/-- Memory reached through a pointer: the byte at each offset from the pointer. -/
abbrev Mem := Nat → Nat

/-- The call `memset(m, c, n)`. -/
def memset (m : Mem) (c n : Nat) : Mem :=
  fun p => if p < n then c else m p

/-- The call `memcpy(dst + d, src + s, n)`, for buffers that do not overlap. -/
def memcpy (dst : Mem) (d : Nat) (src : Mem) (s n : Nat) : Mem :=
  fun p => if d ≤ p ∧ p < d + n then src (s + (p - d)) else dst p

/-- The read `*(const unsigned int *)(m + p)`, little-endian. -/
def rd32 (m : Mem) (p : Nat) : Nat :=
  m p + 256 * m (p + 1) + 65536 * m (p + 2) + 16777216 * m (p + 3)

/-- The write `*(unsigned int *)(m + p) = v`, little-endian. -/
def wr32 (m : Mem) (p v : Nat) : Mem :=
  fun q =>
    if q = p then v % 256
    else if q = p + 1 then v / 256 % 256
    else if q = p + 2 then v / 65536 % 256
    else if q = p + 3 then v / 16777216 % 256
    else m q

/-- The first `n` iterations of the row copy loop of lines 574–578:
`memcpy(fbm + fb_bytes * (fb_maxx * (i + oy) + ox), bp + i * fb_bitmap_width * fb_bytes,`
`fb_bitmap_width * fb_bytes)` for `i = 0 .. n-1`; the offsets are `unsigned int`. -/
def copyRows (fb_bytes fb_maxx ox oy fb_bitmap_width : Nat) (bp : Mem) : Nat → Mem → Mem
  | 0, fbm => fbm
  | i + 1, fbm =>
    memcpy (copyRows fb_bytes fb_maxx ox oy fb_bitmap_width bp i fbm)
      (u32 (fb_bytes * u32 (u32 (fb_maxx * u32 (i + oy)) + ox)))
      bp (u32 (u32 (i * fb_bitmap_width) * fb_bytes))
      (u32 (fb_bitmap_width * fb_bytes))

/-- The first `n` iterations of the inner loop of lines 583–589, in row `i`. -/
def mixRow (clr fb_bytes fb_maxx ox oy fb_bitmap_width : Nat) (bp : Mem) (i : Nat) :
    Nat → Mem → Mem
  | 0, fbm => fbm
  | j + 1, fbm =>
    let m := mixRow clr fb_bytes fb_maxx ox oy fb_bitmap_width bp i j fbm
    let p := u32 (fb_bytes * u32 (u32 (u32 (fb_maxx * u32 (i + oy)) + ox) + j))
    wr32 m p (alphamix (rd32 m p) (rd32 bp (u32 (fb_bytes * u32 (u32 (i * fb_bitmap_width) + j)))) clr)

/-- The first `n` iterations of the outer loop of lines 582–590. -/
def mixRows (clr fb_bytes fb_maxx ox oy fb_bitmap_width : Nat) (bp : Mem) : Nat → Mem → Mem
  | 0, fbm => fbm
  | i + 1, fbm =>
    mixRow clr fb_bytes fb_maxx ox oy fb_bitmap_width bp i fb_bitmap_width
      (mixRows clr fb_bytes fb_maxx ox oy fb_bitmap_width bp i fbm)

/-- The compositing of lines 567–591: the framebuffer contents after the optional `memset`,
the row copy (`clr` 0 or 1) or the alpha mix (`clr` 2..255, whose outer loop runs while
`i < fb_bitmap_height - 2`, an `unsigned int` expression). -/
def composite (clr : Int) (fb_bytes fb_maxx fb_maxy ox oy fb_bitmap_width fb_bitmap_height : Nat)
    (bp fbm : Mem) : Mem :=
  let fbm1 := if clr = 0 then memset fbm 0 (u32 (u32 (fb_maxx * fb_maxy) * fb_bytes)) else fbm
  if clr = 0 ∨ clr = 1 then
    copyRows fb_bytes fb_maxx ox oy fb_bitmap_width bp fb_bitmap_height fbm1
  else if 2 ≤ clr ∧ clr ≤ 255 then
    mixRows (toU32 clr) fb_bytes fb_maxx ox oy fb_bitmap_width bp (usub fb_bitmap_height 2) fbm1
  else
    fbm1

/-! ## Scanline decoding and conversion (`main`, lines 470–516) -/

/-- The expression `(int)((float) i * scale)` with the scale and the product taken as exact
rationals: the floor of `i * scale`. -/
def scaleUp (i : Nat) (scale : Scale) : Nat := i * scale.num / scale.den

/-- The position of the leading bit of `n`: `floorLog2 n n` is the `l` with
`2^l ≤ n < 2^(l+1)` for `n ≥ 1`; the first argument bounds the number of halvings. -/
def floorLog2 : Nat → Nat → Nat
  | 0, _ => 0
  | fuel + 1, n => if n < 2 then 0 else floorLog2 fuel (n / 2) + 1

/-- The exponent of the leading bit of the positive rational `p / q`: the integer `l` with
`2^l ≤ p / q < 2^(l+1)`. -/
def leadingExponent (p q : Nat) : Int :=
  let d : Int := (floorLog2 p p : Int) - (floorLog2 q q : Int)
  if (0 ≤ d ∧ q * 2 ^ d.toNat ≤ p) ∨ (d < 0 ∧ q ≤ p * 2 ^ (-d).toNat) then d else d - 1

/-- Rounding to single precision: the binary32 value nearest to `x.num / x.den`, ties to
even.  With `e = leadingExponent - 23` the quotient `x / 2^e` lies in `[2^23, 2^24)`; it is
rounded to an integer `m`, and the result is `m * 2^e`. -/
def f32 (x : Scale) : Scale :=
  if x.num = 0 ∨ x.den = 0 then ⟨0, 1⟩
  else
    let e : Int := leadingExponent x.num x.den - 23
    let n := if e < 0 then x.num * 2 ^ (-e).toNat else x.num
    let d := if e < 0 then x.den else x.den * 2 ^ e.toNat
    let m0 := n / d
    let r := n % d
    let m := if d < 2 * r ∨ (2 * r = d ∧ m0 % 2 = 1) then m0 + 1 else m0
    if e < 0 then ⟨m, 2 ^ (-e).toNat⟩ else ⟨m * 2 ^ e.toNat, 1⟩

/-- The expression `(int)((float) i * scale)` as the program computes it: `i` converted to
`float`, multiplied by the value of the `float` variable `scale` (the value assigned to it,
rounded to single precision), the product rounded to single precision and truncated. -/
def scaleUp32 (i : Nat) (scale : Scale) : Nat :=
  let a := f32 ⟨i, 1⟩
  let s := f32 scale
  let p := f32 ⟨a.num * s.num, a.den * s.den⟩
  p.num / p.den

/-- The sampled source column `(int)((int)((float) i * scale) + scanline_offset)` as the
program computes it; the sum is `unsigned int`. -/
def sampleColumn32 (scale : Scale) (scanline_offset i : Nat) : Nat :=
  u32 (u32 (scaleUp32 i scale) + scanline_offset)

/-- The index `(int)((int)((float) i * scale) + scanline_offset) * c + k` into the line buffer
`lb`; the product and the sum are `unsigned int`. -/
def lbIndex (scale : Scale) (scanline_offset c i k : Nat) : Nat :=
  u32 (u32 (sampleColumn32 scale scanline_offset i * c) + k)

/-- The assignment `m[p] = v` of one byte. -/
def poke (m : Mem) (p v : Nat) : Mem :=
  fun q => if q = p then v else m q

/-- The first `n` iterations of the loop of lines 493–498 (32 bit framebuffer): four bytes
per pixel at `bp[sz + i * 4 + 0 .. 3]`. -/
def convertRow32 (lb : Mem) (scale : Scale) (scanline_offset c sz : Nat) : Nat → Mem → Mem
  | 0, bp => bp
  | i + 1, bp =>
    let bp0 := convertRow32 lb scale scanline_offset c sz i bp
    let bp1 := poke bp0 (u32 (u32 (sz + u32 (i * 4)) + 0)) (lb (lbIndex scale scanline_offset c i 2))
    let bp2 := poke bp1 (u32 (u32 (sz + u32 (i * 4)) + 1)) (lb (lbIndex scale scanline_offset c i 1))
    let bp3 := poke bp2 (u32 (u32 (sz + u32 (i * 4)) + 2)) (lb (lbIndex scale scanline_offset c i 0))
    poke bp3 (u32 (u32 (sz + u32 (i * 4)) + 3)) 0xff

/-- The first `n` iterations of the loop of lines 501–508 (16 bit framebuffer). -/
def convertRow16 (lb : Mem) (scale : Scale) (scanline_offset c sz : Nat) : Nat → Mem → Mem
  | 0, bp => bp
  | i + 1, bp =>
    let bp0 := convertRow16 lb scale scanline_offset c sz i bp
    let Red := lb (lbIndex scale scanline_offset c i 0)
    let Green := lb (lbIndex scale scanline_offset c i 1)
    let Blue := lb (lbIndex scale scanline_offset c i 2)
    let bp1 := poke bp0 (u32 (u32 (sz + u32 (i * 2)) + 0)) (encode565 Red Green Blue).1
    poke bp1 (u32 (u32 (sz + u32 (i * 2)) + 1)) (encode565 Red Green Blue).2

/-- The variables the decode loop updates. -/
structure DecodeState where
  bp : Mem
  sz : Nat
  last_scanline : Nat

/-- The body of the decode loop below `jpeg_read_scanlines` (lines 480–515): `lb` is the
scanline just read and `n` the value of `output_scanline` after the read (the number of
scanlines read so far).  The comparison with `bitmap_height * scale` is between floats. -/
def decodeStep (fb_bytes bitmap_width bitmap_height : Nat) (scale : Scale)
    (scanline_offset start_scanline c : Nat) (lb : Mem) (n : Nat) (st : DecodeState) :
    DecodeState :=
  if n > start_scanline then
    if usub n start_scanline * scale.den < bitmap_height * scale.num then
      if u32 (n * scale.den / scale.num) ≠ st.last_scanline then
        { bp :=
            if fb_bytes = 4 then
              convertRow32 lb scale scanline_offset c st.sz bitmap_width st.bp
            else if fb_bytes = 2 then
              convertRow16 lb scale scanline_offset c st.sz bitmap_width st.bp
            else st.bp,
          sz := u32 (st.sz + u32 (bitmap_width * fb_bytes)),
          last_scanline := u32 (n * scale.den / scale.num) }
      else st
    else st
  else st

/-- The decode loop `while (output_scanline < image_height && sz <= fb_bytes * bitmap_width *
bitmap_height)` of lines 474–516, from `output_scanline = k`; `image k` is scanline `k` of
the decoded image.  Each iteration reads one scanline, so `image_height - k` iterations
(the first argument) end the loop. -/
def decodeLoop (fb_bytes bitmap_width bitmap_height : Nat) (scale : Scale)
    (scanline_offset start_scanline c image_height : Nat) (image : Nat → Mem) :
    Nat → Nat → DecodeState → DecodeState
  | 0, _, st => st
  | fuel + 1, k, st =>
    if k < image_height ∧ st.sz ≤ u32 (u32 (fb_bytes * bitmap_width) * bitmap_height) then
      decodeLoop fb_bytes bitmap_width bitmap_height scale scanline_offset start_scanline c
        image_height image fuel (k + 1)
        (decodeStep fb_bytes bitmap_width bitmap_height scale scanline_offset start_scanline c
          (image k) (k + 1) st)
    else st

/-- The decoding of lines 470–516: `sz = 0; last_scanline = 0;` and the loop, into the
(uninitialised) bitmap `buffer`. -/
def decode (fb_bytes : Nat) (g : Geometry) (c image_height : Nat) (image : Nat → Mem)
    (buffer : Mem) : DecodeState :=
  decodeLoop fb_bytes g.bitmap_width g.bitmap_height g.scale g.scanline_offset
    g.start_scanline c image_height image image_height 0
    { bp := buffer, sz := 0, last_scanline := 0 }

/-! ## Rotation (`rotate90`, `rotate270`, and the dispatch of lines 522–551)

The loop counters are of type `int`; signed overflow being undefined, they are modelled by
exact natural numbers. -/

/-- The first `n` iterations of the innermost loop of `rotate90`,
`for (z = 0; z < c; z++) dp[pos++] = sp[tmp + z];`, on the pair `(dp, pos)`. -/
def rotate90Pixel (sp : Mem) (tmp : Nat) : Nat → Mem × Nat → Mem × Nat
  | 0, s => s
  | z + 1, s =>
    let s1 := rotate90Pixel sp tmp z s
    (poke s1.1 s1.2 (sp (tmp + z)), s1.2 + 1)

/-- The first `n` iterations of the loop `for (y = yres - 1; y >= 0; y--)` of `rotate90` in
column `x`; iteration `k` has `y = yres - 1 - k` and `tmp = (x + y * xres) * c`. -/
def rotate90Column (sp : Mem) (xres yres c x : Nat) : Nat → Mem × Nat → Mem × Nat
  | 0, s => s
  | k + 1, s =>
    rotate90Pixel sp ((x + (yres - 1 - k) * xres) * c) c (rotate90Column sp xres yres c x k s)

/-- The first `n` iterations of the loop `for (x = 0; x < xres; x++)` of `rotate90`. -/
def rotate90Columns (sp : Mem) (xres yres c : Nat) : Nat → Mem × Nat → Mem × Nat
  | 0, s => s
  | x + 1, s => rotate90Column sp xres yres c x yres (rotate90Columns sp xres yres c x s)

/-- The function `rotate90(dp, sp, xres, yres, c)`: the contents of `dp` on return. -/
def rotate90 (dp sp : Mem) (xres yres c : Nat) : Mem :=
  (rotate90Columns sp xres yres c xres (dp, 0)).1

/-- The first `n` iterations of the inner loop `for (x = 0; x < yres*c; x += c)` of
`rotate270` in row `y`; iteration `k` has `x = k * c` (the loop ends after `yres` iterations
when `c ≥ 1`). -/
def rotate270Row (sp : Mem) (xres yres c y : Nat) : Nat → Mem → Mem
  | 0, dp => dp
  | k + 1, dp =>
    memcpy (rotate270Row sp xres yres c y k dp) (k * c + y * yres * c)
      sp ((xres - 1 - y) * c + k * c * xres) c

/-- The first `n` iterations of the outer loop `for (y = 0; y < xres; y++)` of `rotate270`. -/
def rotate270Rows (sp : Mem) (xres yres c : Nat) : Nat → Mem → Mem
  | 0, dp => dp
  | y + 1, dp => rotate270Row sp xres yres c y yres (rotate270Rows sp xres yres c y dp)

/-- The function `rotate270(dp, sp, xres, yres, c)`: the contents of `dp` on return. -/
def rotate270 (dp sp : Mem) (xres yres c : Nat) : Mem :=
  rotate270Rows sp xres yres c xres dp

/-- The rotation dispatch of lines 522–551: the contents of the buffer `bp` points to
afterwards (`bp1 = buffer`, `bp2 = workbuf`). -/
def rotateBitmap (rotate : Int) (buffer workbuf : Mem) (bitmap_width bitmap_height fb_bytes : Nat) :
    Mem :=
  if rotate = 1 then rotate90 workbuf buffer bitmap_width bitmap_height fb_bytes
  else if rotate = 2 then
    rotate90 buffer (rotate90 workbuf buffer bitmap_width bitmap_height fb_bytes)
      bitmap_height bitmap_width fb_bytes
  else if rotate = 3 then rotate270 workbuf buffer bitmap_width bitmap_height fb_bytes
  else buffer

/-! ## The program (`main`) -/

/-- The pixel storage size of line 297:
`fb_bytes = (fb_bits == 32 || fb_bits == 24) ? 4 : (fb_bits == 16 ? 2 : 1)`. -/
def fbBytes (fb_bits : Nat) : Nat :=
  if fb_bits = 32 ∨ fb_bits = 24 then 4 else if fb_bits = 16 then 2 else 1

/-- The length `fb_maxx * fb_maxy * fb_bytes` passed to `mmap` (line 562), an `unsigned int`
expression. -/
def mapLength (fb_maxx fb_maxy fb_bytes : Nat) : Nat :=
  u32 (u32 (fb_maxx * fb_maxy) * fb_bytes)

/-- Whether every store of the compositing lies inside the `mapLength` bytes mapped: the
rows of the row copy (`clr` 0 or 1), the 4-byte stores of the alpha mix (`clr` 2..255, rows
`i < fb_bitmap_height - 2` as `unsigned int`); no store for any other `clr`. -/
def compositeInMap (clr : Int)
    (fb_bytes fb_maxx fb_maxy ox oy fb_bitmap_width fb_bitmap_height : Nat) : Bool :=
  if clr = 0 ∨ clr = 1 then
    decide (∀ i, i < fb_bitmap_height →
      u32 (fb_bitmap_width * fb_bytes) = 0 ∨
      u32 (fb_bytes * u32 (u32 (fb_maxx * u32 (i + oy)) + ox)) + u32 (fb_bitmap_width * fb_bytes)
        ≤ mapLength fb_maxx fb_maxy fb_bytes)
  else if 2 ≤ clr ∧ clr ≤ 255 then
    decide (∀ i, i < usub fb_bitmap_height 2 → ∀ j, j < fb_bitmap_width →
      u32 (fb_bytes * u32 (u32 (u32 (fb_maxx * u32 (i + oy)) + ox) + j)) + 4
        ≤ mapLength fb_maxx fb_maxy fb_bytes)
  else true

/-- How a run ends: the exit status, if the run has one, and the contents of the
framebuffer. -/
structure Outcome where
  status : Option Nat
  fbm : Mem

/-- The function `main` from the geometry switch on, for a run in which the file, the JPEG
decoder and the framebuffer device report no error: the arguments `rotate`, `scaling`,
`xpan`, `ypan`, `clr`; the framebuffer geometry; the decoded image (`c` bytes per pixel,
scanline `k` is `image k`); the initial contents of the two bitmap buffers and of the
framebuffer.  An unknown rotation exits with status 1.  Every other run goes on to the
compositing: when all its stores lie inside the mapped framebuffer the run reaches `exit(0)`;
when one does not, the behaviour is undefined and the run has no exit status (`none`). -/
def jfbv (rotate scaling xpan ypan clr : Int) (fb_maxx fb_maxy fb_bits : Nat)
    (image_width image_height c : Nat) (image : Nat → Mem) (buffer workbuf fbm : Mem) :
    Outcome :=
  match planGeometry rotate scaling xpan ypan image_width image_height fb_maxx fb_maxy with
  | none => { status := some 1, fbm := fbm }
  | some g =>
    let fb_bytes := fbBytes fb_bits
    let st := decode fb_bytes g c image_height image buffer
    let bp := rotateBitmap rotate st.bp workbuf g.bitmap_width g.bitmap_height fb_bytes
    let d := finalDims rotate g.bitmap_width g.bitmap_height
    { status :=
        if compositeInMap clr fb_bytes fb_maxx fb_maxy g.ox g.oy d.1 d.2 then some 0 else none,
      fbm := composite clr fb_bytes fb_maxx fb_maxy g.ox g.oy d.1 d.2 bp fbm }


/-! ## Facts about the geometry planning -/

theorem clampPan_eq (p : Int) (m : Nat) (hp : |p| < 2147483648) :
    clampPan p m = if (m : Int) < |p| then (if 0 < p then (m : Int) else -(m : Int)) else p := by
  rw [Int.abs_eq_natAbs] at hp ⊢
  unfold clampPan toU32 cabs
  by_cases hneg : p < 0
  · have h1 : Int.tdiv p (-p) = -1 := by
      rw [Int.tdiv_neg, Int.tdiv_self (by omega)]
    simp only [hneg, if_true, h1]
    split_ifs <;> omega
  · by_cases hz : p = 0
    · subst hz
      have hm : ¬ ((m : Int) < 0) := by omega
      simp [hm]
    · have h1 : Int.tdiv p p = 1 := Int.tdiv_self hz
      simp only [hneg, if_false, h1]
      split_ifs <;> omega

theorem clampPan_sign_min (p : Int) (m : Nat) (hp : |p| < 2147483648) :
    clampPan p m = Int.sign p * min |p| (m : Int) := by
  rw [clampPan_eq p m hp]
  rw [Int.abs_eq_natAbs] at hp ⊢
  rcases lt_trichotomy p 0 with h | h | h
  · rw [Int.sign_eq_neg_one_of_neg h]
    split_ifs <;> omega
  · subst h
    simp
  · rw [Int.sign_eq_one_of_pos h]
    split_ifs <;> omega

theorem clampPan_abs_le (p : Int) (m : Nat) (hp : |p| < 2147483648) :
    |clampPan p m| ≤ (m : Int) := by
  rw [clampPan_eq p m hp]
  rw [Int.abs_eq_natAbs] at hp
  rw [Int.abs_eq_natAbs]
  rw [Int.abs_eq_natAbs]
  split_ifs <;> omega

theorem placeAxis_extent_le (b f : Nat) (p : Int) : (placeAxis b f p).extent ≤ f := by
  unfold placeAxis
  split_ifs with h
  · exact Nat.le_of_lt h
  · exact Nat.le_refl f


theorem usub_eq (a b : Nat) (hba : b ≤ a) (ha : a < 4294967296) : usub a b = a - b := by
  unfold usub
  omega

theorem placeAxis_centered (b f : Nat) (p : Int) (hbf : b < f) (hf : f < 4294967296)
    (hp : |p| < 2147483648) :
    (placeAxis b f p).pan = clampPan p ((f - b) / 2) ∧
    ((placeAxis b f p).offset : Int) = ((f - b) / 2 : Nat) + clampPan p ((f - b) / 2) ∧
    (placeAxis b f p).sample = 0 ∧ (placeAxis b f p).extent = b := by
  have hle := clampPan_abs_le p ((f - b) / 2) hp
  rw [Int.abs_eq_natAbs] at hle
  unfold placeAxis
  rw [if_pos hbf, usub_eq f b (Nat.le_of_lt hbf) hf]
  refine ⟨rfl, ?_, rfl, rfl⟩
  simp only [toU32]
  omega

theorem placeAxis_cropped (b f : Nat) (p : Int) (hbf : ¬ b < f) (hb : b < 4294967296)
    (hp : |p| < 2147483648) :
    (placeAxis b f p).pan = clampPan p ((b - f) / 2) ∧
    ((placeAxis b f p).sample : Int) = ((b - f) / 2 : Nat) + clampPan p ((b - f) / 2) ∧
    (placeAxis b f p).offset = 0 ∧ (placeAxis b f p).extent = f := by
  have hle := clampPan_abs_le p ((b - f) / 2) hp
  rw [Int.abs_eq_natAbs] at hle
  unfold placeAxis
  rw [if_neg hbf, usub_eq b f (Nat.le_of_not_lt hbf) hb]
  refine ⟨rfl, ?_, rfl, rfl⟩
  simp only [toU32]
  omega

/-- Whatever the scale (and so whatever the rounding of the float computation), the clipping
of the two centre-or-crop blocks bounds the bitmap by the framebuffer, rotation 1 and 3. -/
theorem geometry13_clipped (sc : Scale) (xpan ypan : Int) (iw ih fx fy : Nat) :
    (geometry13 sc xpan ypan iw ih fx fy).bitmap_height ≤ fx ∧
    (geometry13 sc xpan ypan iw ih fx fy).bitmap_width ≤ fy :=
  ⟨placeAxis_extent_le _ _ _, placeAxis_extent_le _ _ _⟩

/-- Whatever the scale, the clipping bounds the bitmap by the framebuffer, rotation 0 and 2. -/
theorem geometry02_clipped (sc : Scale) (xpan ypan : Int) (iw ih fx fy : Nat) :
    (geometry02 sc xpan ypan iw ih fx fy).bitmap_width ≤ fx ∧
    (geometry02 sc xpan ypan iw ih fx fy).bitmap_height ≤ fy :=
  ⟨placeAxis_extent_le _ _ _, placeAxis_extent_le _ _ _⟩

/-- C1: for every source and target size (in particular all four positive and below 2^31),
every rotation in 0..3, every scale mode and every requested pan, the geometry switch produces
a plan, and the final (post-rotation) bitmap is no wider than `fb_maxx` and no higher than
`fb_maxy`. -/
theorem final_bitmap_within_framebuffer (rotate scaling xpan ypan : Int)
    (image_width image_height fb_maxx fb_maxy : Nat)
    (hrot : rotate = 0 ∨ rotate = 1 ∨ rotate = 2 ∨ rotate = 3) :
    ∃ g, planGeometry rotate scaling xpan ypan image_width image_height fb_maxx fb_maxy = some g ∧
      (finalDims rotate g.bitmap_width g.bitmap_height).1 ≤ fb_maxx ∧
      (finalDims rotate g.bitmap_width g.bitmap_height).2 ≤ fb_maxy := by
  rcases hrot with h | h | h | h <;> subst h
  · exact ⟨_, rfl, geometry02_clipped _ _ _ _ _ _ _⟩
  · exact ⟨_, rfl, geometry13_clipped _ _ _ _ _ _ _⟩
  · exact ⟨_, rfl, geometry02_clipped _ _ _ _ _ _ _⟩
  · exact ⟨_, rfl, geometry13_clipped _ _ _ _ _ _ _⟩

/-- C1, the scenario of the specification: source 640x480 on a 480x640 target with rotation 1
and pan (0,0) gives a final bitmap of 480x640 at offset (0,0). -/
theorem final_bitmap_within_framebuffer_witness :
    (planGeometry 1 0 0 0 640 480 480 640).map
        (fun g => (finalDims 1 g.bitmap_width g.bitmap_height, g.ox, g.oy))
      = some ((480, 640), 0, 0) ∧
    ∃ g, planGeometry 1 0 0 0 640 480 480 640 = some g ∧
      (finalDims 1 g.bitmap_width g.bitmap_height).1 ≤ 480 ∧
      (finalDims 1 g.bitmap_width g.bitmap_height).2 ≤ 640 :=
  ⟨by decide, final_bitmap_within_framebuffer 1 0 0 0 640 480 480 640 (by decide)⟩


theorem Scale.val_one : Scale.val ⟨1, 1⟩ = 1 := by
  simp [Scale.val]

/-- The scale chosen in FIT mode: positive, at least 1, equal to the rational
`max 1 (max (w / ax) (h / ay))`, and making both source axes fit. -/
theorem fitScale_fit (iw ih ax ay : Nat) (hax : 0 < ax) (hay : 0 < ay) :
    0 < (fitScale 0 iw ih ax ay).den ∧
    (fitScale 0 iw ih ax ay).den ≤ (fitScale 0 iw ih ax ay).num ∧
    iw * (fitScale 0 iw ih ax ay).den ≤ ax * (fitScale 0 iw ih ax ay).num ∧
    ih * (fitScale 0 iw ih ax ay).den ≤ ay * (fitScale 0 iw ih ax ay).num ∧
    (fitScale 0 iw ih ax ay).val = max 1 (max ((iw : ℚ) / ax) ((ih : ℚ) / ay)) := by
  have hax' : (0 : ℚ) < ax := by exact_mod_cast hax
  have hay' : (0 : ℚ) < ay := by exact_mod_cast hay
  unfold fitScale
  simp only [if_true]
  by_cases hcmp : iw * ay > ih * ax
  · have hq : (ih : ℚ) / ay < (iw : ℚ) / ax := by
      rw [div_lt_div_iff₀ hay' hax']
      exact_mod_cast hcmp
    rw [if_pos hcmp]
    by_cases hlt : iw < ax
    · have hq1 : (iw : ℚ) / ax < 1 := by
        rw [div_lt_one hax']
        exact_mod_cast hlt
      rw [if_pos hlt]
      refine ⟨Nat.one_pos, Nat.le_refl _, ?_, ?_, ?_⟩
      · show iw * 1 ≤ ax * 1
        omega
      · have h1 : ih * ax < ax * ay := by
          calc ih * ax < iw * ay := hcmp
            _ ≤ ax * ay := Nat.mul_le_mul_right _ (Nat.le_of_lt hlt)
        have h2 : ih < ay := by
          by_contra hge
          have : ay * ax ≤ ih * ax := Nat.mul_le_mul_right _ (Nat.le_of_not_lt hge)
          rw [Nat.mul_comm ay ax] at this
          omega
        show ih * 1 ≤ ay * 1
        omega
      · rw [Scale.val_one, max_eq_left (le_of_lt hq), max_eq_left (le_of_lt hq1)]
    · rw [if_neg hlt]
      have hq1 : 1 ≤ (iw : ℚ) / ax := by
        rw [one_le_div hax']
        exact_mod_cast Nat.le_of_not_lt hlt
      refine ⟨hax, Nat.le_of_not_lt hlt, ?_, ?_, ?_⟩
      · exact Nat.le_of_eq (Nat.mul_comm _ _)
      · have := Nat.le_of_lt hcmp
        calc ih * ax ≤ iw * ay := this
          _ = ay * iw := Nat.mul_comm _ _
      · simp only [Scale.val]
        rw [max_eq_left (le_of_lt hq), max_eq_right hq1]
  · have hq : (iw : ℚ) / ax ≤ (ih : ℚ) / ay := by
      rw [div_le_div_iff₀ hax' hay']
      exact_mod_cast Nat.le_of_not_lt hcmp
    rw [if_neg hcmp]
    by_cases hlt : ih < ay
    · have hq1 : (ih : ℚ) / ay < 1 := by
        rw [div_lt_one hay']
        exact_mod_cast hlt
      rw [if_pos hlt]
      refine ⟨Nat.one_pos, Nat.le_refl _, ?_, ?_, ?_⟩
      · have h1 : iw * ay < ax * ay := by
          calc iw * ay ≤ ih * ax := Nat.le_of_not_lt hcmp
            _ = ax * ih := Nat.mul_comm _ _
            _ < ax * ay := Nat.mul_lt_mul_of_pos_left hlt hax
        have h2 : iw < ax := by
          by_contra hge
          have : ax * ay ≤ iw * ay := Nat.mul_le_mul_right _ (Nat.le_of_not_lt hge)
          omega
        show iw * 1 ≤ ax * 1
        omega
      · show ih * 1 ≤ ay * 1
        omega
      · rw [Scale.val_one, max_eq_right hq, max_eq_left (le_of_lt hq1)]
    · rw [if_neg hlt]
      have hq1 : 1 ≤ (ih : ℚ) / ay := by
        rw [one_le_div hay']
        exact_mod_cast Nat.le_of_not_lt hlt
      refine ⟨hay, Nat.le_of_not_lt hlt, ?_, ?_, ?_⟩
      · calc iw * ay ≤ ih * ax := Nat.le_of_not_lt hcmp
          _ = ax * ih := Nat.mul_comm _ _
      · exact Nat.le_of_eq (Nat.mul_comm _ _)
      · simp only [Scale.val]
        rw [max_eq_right hq, max_eq_right hq1]

theorem fitScale_native (scaling : Int) (iw ih ax ay : Nat) (h : scaling ≠ 0) :
    fitScale scaling iw ih ax ay = ⟨1, 1⟩ := by
  unfold fitScale
  rw [if_neg h]

/-- In FIT mode a source that already fits gets the scale 1. -/
theorem fitScale_no_upscale (iw ih ax ay : Nat) (hax : 0 < ax) (hay : 0 < ay)
    (hw : iw ≤ ax) (hh : ih ≤ ay) : (fitScale 0 iw ih ax ay).val = 1 := by
  have hax' : (0 : ℚ) < ax := by exact_mod_cast hax
  have hay' : (0 : ℚ) < ay := by exact_mod_cast hay
  rw [(fitScale_fit iw ih ax ay hax hay).2.2.2.2]
  apply max_eq_left
  apply max_le
  · rw [div_le_one hax']
    exact_mod_cast hw
  · rw [div_le_one hay']
    exact_mod_cast hh


/-- With a scale of at least 1 the scaled axis is the floor of the exact quotient, and no
longer than the unscaled axis. -/
theorem scaleDown_eq_floor (n : Nat) (s : Scale) (hdn : s.den ≤ s.num)
    (hn : n < 4294967296) :
    scaleDown n s = n * s.den / s.num ∧ scaleDown n s = ⌊(n : ℚ) / s.val⌋₊ ∧
    scaleDown n s ≤ n := by
  have hle : n * s.den / s.num ≤ n := by
    apply Nat.div_le_of_le_mul
    calc n * s.den ≤ n * s.num := Nat.mul_le_mul_left _ hdn
      _ = s.num * n := Nat.mul_comm _ _
  have h1 : scaleDown n s = n * s.den / s.num := by
    unfold scaleDown u32
    exact Nat.mod_eq_of_lt (Nat.lt_of_le_of_lt hle hn)
  refine ⟨h1, ?_, by omega⟩
  rw [h1]
  unfold Scale.val
  rw [div_div_eq_mul_div]
  have : (n : ℚ) * (s.den : ℚ) = ((n * s.den : ℕ) : ℚ) := by push_cast; ring
  rw [this, Nat.floor_div_eq_div]

/-- C2: the planner never upscales.  For every valid rotation and a non-empty target, the
scale is exactly 1 in NATIVE mode (`scaling != 0`), and in FIT mode (`scaling == 0`) whenever
the source width and height do not exceed the logical target axes. -/
theorem scale_is_one_without_upscaling (rotate scaling xpan ypan : Int)
    (image_width image_height fb_maxx fb_maxy : Nat)
    (hfx : 0 < fb_maxx) (hfy : 0 < fb_maxy)
    (hrot : rotate = 0 ∨ rotate = 1 ∨ rotate = 2 ∨ rotate = 3)
    (h : scaling ≠ 0 ∨ (scaling = 0 ∧ image_width ≤ (logicalAxes rotate fb_maxx fb_maxy).1 ∧
      image_height ≤ (logicalAxes rotate fb_maxx fb_maxy).2)) :
    ∃ g, planGeometry rotate scaling xpan ypan image_width image_height fb_maxx fb_maxy = some g ∧
      g.scale.val = 1 := by
  rcases h with h | ⟨h0, hw, hh⟩
  · rcases hrot with r | r | r | r <;> subst r
    · exact ⟨_, rfl, by
        show (fitScale scaling image_width image_height fb_maxx fb_maxy).val = 1
        rw [fitScale_native _ _ _ _ _ h, Scale.val_one]⟩
    · exact ⟨_, rfl, by
        show (fitScale scaling image_width image_height fb_maxy fb_maxx).val = 1
        rw [fitScale_native _ _ _ _ _ h, Scale.val_one]⟩
    · exact ⟨_, rfl, by
        show (fitScale scaling image_width image_height fb_maxx fb_maxy).val = 1
        rw [fitScale_native _ _ _ _ _ h, Scale.val_one]⟩
    · exact ⟨_, rfl, by
        show (fitScale scaling image_width image_height fb_maxy fb_maxx).val = 1
        rw [fitScale_native _ _ _ _ _ h, Scale.val_one]⟩
  · subst h0
    rcases hrot with r | r | r | r <;> subst r
    · exact ⟨_, rfl, fitScale_no_upscale _ _ _ _ hfx hfy hw hh⟩
    · exact ⟨_, rfl, fitScale_no_upscale _ _ _ _ hfy hfx hw hh⟩
    · exact ⟨_, rfl, fitScale_no_upscale _ _ _ _ hfx hfy hw hh⟩
    · exact ⟨_, rfl, fitScale_no_upscale _ _ _ _ hfy hfx hw hh⟩

/-- C2 at a concrete input: a 200x100 source on a 320x240 target in FIT mode, rotation 0. -/
theorem scale_is_one_without_upscaling_witness :
    ∃ g, planGeometry 0 0 0 0 200 100 320 240 = some g ∧ g.scale.val = 1 :=
  scale_is_one_without_upscaling 0 0 0 0 200 100 320 240 (by decide) (by decide)
    (by decide) (Or.inr ⟨rfl, by decide, by decide⟩)

/-- The minimality of the FIT scale: a factor below `max 1 (max (w / ax) (h / ay))` and at
least 1 leaves one of the two axes too long. -/
theorem below_fit_scale_overflows (iw ih ax ay : Nat) (hax : 0 < ax) (hay : 0 < ay) (s : ℚ)
    (h1 : 1 ≤ s) (hs : s < max 1 (max ((iw : ℚ) / ax) ((ih : ℚ) / ay))) :
    (ax : ℚ) < (iw : ℚ) / s ∨ (ay : ℚ) < (ih : ℚ) / s := by
  have hax' : (0 : ℚ) < ax := by exact_mod_cast hax
  have hay' : (0 : ℚ) < ay := by exact_mod_cast hay
  have hs0 : (0 : ℚ) < s := lt_of_lt_of_le one_pos h1
  rcases lt_max_iff.mp hs with h | h
  · exact absurd h1 (not_le.mpr h)
  · rcases lt_max_iff.mp h with h | h
    · left
      rw [lt_div_iff₀ hs0]
      rw [lt_div_iff₀ hax'] at h
      linarith
    · right
      rw [lt_div_iff₀ hs0]
      rw [lt_div_iff₀ hay'] at h
      linarith

/-- The conclusion of C3 for one pair of logical target axes. -/
theorem fitScale_smallest (iw ih ax ay : Nat) (hiw : iw < 4294967296) (hih : ih < 4294967296)
    (hax : 0 < ax) (hay : 0 < ay) :
    (fitScale 0 iw ih ax ay).val = max 1 (max ((iw : ℚ) / ax) ((ih : ℚ) / ay)) ∧
    scaleDown iw (fitScale 0 iw ih ax ay) = ⌊(iw : ℚ) / (fitScale 0 iw ih ax ay).val⌋₊ ∧
    scaleDown ih (fitScale 0 iw ih ax ay) = ⌊(ih : ℚ) / (fitScale 0 iw ih ax ay).val⌋₊ ∧
    ⌊(iw : ℚ) / (fitScale 0 iw ih ax ay).val⌋₊ ≤ ax ∧
    ⌊(ih : ℚ) / (fitScale 0 iw ih ax ay).val⌋₊ ≤ ay ∧
    ∀ s : ℚ, 1 ≤ s → s < (fitScale 0 iw ih ax ay).val →
      (ax : ℚ) < (iw : ℚ) / s ∨ (ay : ℚ) < (ih : ℚ) / s := by
  obtain ⟨_, hdn, hfw, hfh, hval⟩ := fitScale_fit iw ih ax ay hax hay
  obtain ⟨hw1, hw2, _⟩ := scaleDown_eq_floor iw _ hdn hiw
  obtain ⟨hh1, hh2, _⟩ := scaleDown_eq_floor ih _ hdn hih
  refine ⟨hval, hw2, hh2, ?_, ?_, ?_⟩
  · rw [← hw2, hw1]
    apply Nat.div_le_of_le_mul
    rw [Nat.mul_comm _ ax]
    exact hfw
  · rw [← hh2, hh1]
    apply Nat.div_le_of_le_mul
    rw [Nat.mul_comm _ ay]
    exact hfh
  · intro s h1 hs
    rw [hval] at hs
    exact below_fit_scale_overflows iw ih ax ay hax hay s h1 hs

/-- C3: in FIT mode, with the scale taken as an exact rational, the scale of the plan is
`max 1 (max (w / axisX) (h / axisY))`; the scaled axes are the floors of `w / scale` and
`h / scale` and fit the logical target axes; and every factor `s` with `1 ≤ s < scale` leaves
`w / s > axisX` or `h / s > axisY`. -/
theorem fit_scale_is_smallest_fitting (rotate xpan ypan : Int)
    (image_width image_height fb_maxx fb_maxy : Nat)
    (hiw : image_width < 4294967296) (hih : image_height < 4294967296)
    (hfx : 0 < fb_maxx) (hfy : 0 < fb_maxy)
    (hrot : rotate = 0 ∨ rotate = 1 ∨ rotate = 2 ∨ rotate = 3) :
    ∃ g, planGeometry rotate 0 xpan ypan image_width image_height fb_maxx fb_maxy = some g ∧
      g.scale.val = max 1 (max ((image_width : ℚ) / (logicalAxes rotate fb_maxx fb_maxy).1)
        ((image_height : ℚ) / (logicalAxes rotate fb_maxx fb_maxy).2)) ∧
      scaleDown image_width g.scale = ⌊(image_width : ℚ) / g.scale.val⌋₊ ∧
      scaleDown image_height g.scale = ⌊(image_height : ℚ) / g.scale.val⌋₊ ∧
      ⌊(image_width : ℚ) / g.scale.val⌋₊ ≤ (logicalAxes rotate fb_maxx fb_maxy).1 ∧
      ⌊(image_height : ℚ) / g.scale.val⌋₊ ≤ (logicalAxes rotate fb_maxx fb_maxy).2 ∧
      ∀ s : ℚ, 1 ≤ s → s < g.scale.val →
        ((logicalAxes rotate fb_maxx fb_maxy).1 : ℚ) < (image_width : ℚ) / s ∨
        ((logicalAxes rotate fb_maxx fb_maxy).2 : ℚ) < (image_height : ℚ) / s := by
  rcases hrot with r | r | r | r <;> subst r
  · exact ⟨_, rfl, fitScale_smallest image_width image_height fb_maxx fb_maxy hiw hih hfx hfy⟩
  · exact ⟨_, rfl, fitScale_smallest image_width image_height fb_maxy fb_maxx hiw hih hfy hfx⟩
  · exact ⟨_, rfl, fitScale_smallest image_width image_height fb_maxx fb_maxy hiw hih hfx hfy⟩
  · exact ⟨_, rfl, fitScale_smallest image_width image_height fb_maxy fb_maxx hiw hih hfy hfx⟩

/-- C3, the scenario of the specification: source 800x600 on a 320x240 target, rotation 0,
FIT mode, gives scale 2.5, a bitmap of 320x240 and offsets (0,0). -/
theorem fit_scale_is_smallest_fitting_witness :
    planGeometry 0 0 0 0 800 600 320 240
      = some ⟨⟨600, 240⟩, 320, 240, 0, 0, 0, 0, 0, 0⟩ ∧
    Scale.val ⟨600, 240⟩ = 5 / 2 ∧
    ∃ g, planGeometry 0 0 0 0 800 600 320 240 = some g ∧
      g.scale.val = max 1 (max (((800 : ℕ) : ℚ) / (logicalAxes 0 320 240).1)
        (((600 : ℕ) : ℚ) / (logicalAxes 0 320 240).2)) ∧
      scaleDown 800 g.scale = ⌊((800 : ℕ) : ℚ) / g.scale.val⌋₊ ∧
      scaleDown 600 g.scale = ⌊((600 : ℕ) : ℚ) / g.scale.val⌋₊ ∧
      ⌊((800 : ℕ) : ℚ) / g.scale.val⌋₊ ≤ (logicalAxes 0 320 240).1 ∧
      ⌊((600 : ℕ) : ℚ) / g.scale.val⌋₊ ≤ (logicalAxes 0 320 240).2 ∧
      ∀ s : ℚ, 1 ≤ s → s < g.scale.val →
        ((logicalAxes 0 320 240).1 : ℚ) < ((800 : ℕ) : ℚ) / s ∨
        ((logicalAxes 0 320 240).2 : ℚ) < ((600 : ℕ) : ℚ) / s :=
  ⟨by decide, by norm_num [Scale.val],
    fit_scale_is_smallest_fitting 0 0 0 800 600 320 240 (by decide) (by decide)
      (by decide) (by decide) (by decide)⟩


theorem scaleDown_lt (n : Nat) (s : Scale) : scaleDown n s < 4294967296 := by
  unfold scaleDown u32
  omega

/-- The centring invariant for one axis. -/
theorem axis_centering (b f : Nat) (p : Int) (hf : f < 4294967296) (hp : |p| < 2147483648)
    (hbf : b < f) :
    (p = 0 → (placeAxis b f p).offset = (f - b) / 2) ∧
    |((placeAxis b f p).offset : Int) - ((f - b) / 2 : Nat)| = |(placeAxis b f p).pan| ∧
    (placeAxis b f p).offset ≤ f - b := by
  obtain ⟨h1, h2, _, _⟩ := placeAxis_centered b f p hbf hf hp
  have hle := clampPan_abs_le p ((f - b) / 2) hp
  have heq := clampPan_eq p ((f - b) / 2) hp
  rw [h1]
  rw [Int.abs_eq_natAbs] at hle hp heq
  refine ⟨?_, ?_, ?_⟩
  · intro h0
    subst h0
    simp at heq
    omega
  · rw [h2]
    simp
  · omega

/-- The pan clamp for one axis. -/
theorem axis_pan_clamp (b f : Nat) (p : Int) (hb : b < 4294967296) (hf : f < 4294967296)
    (hp : |p| < 2147483648) :
    (placeAxis b f p).pan = Int.sign p * min |p| (margin b f : Int) ∧
    (¬ b < f → ((placeAxis b f p).sample : Int) = (margin b f : Int) + (placeAxis b f p).pan ∧
      (placeAxis b f p).sample ≤ 2 * margin b f) ∧
    (margin b f = 0 → (placeAxis b f p).pan = 0) := by
  unfold margin
  by_cases hbf : b < f
  · obtain ⟨h1, _, _, _⟩ := placeAxis_centered b f p hbf hf hp
    rw [if_pos hbf, h1]
    refine ⟨clampPan_sign_min p _ hp, fun h => absurd hbf h, ?_⟩
    intro hm
    have hle := clampPan_abs_le p ((f - b) / 2) hp
    rw [hm, Int.abs_eq_natAbs] at hle
    rw [hm]
    omega
  · obtain ⟨h1, h2, _, _⟩ := placeAxis_cropped b f p hbf hb hp
    have hle := clampPan_abs_le p ((b - f) / 2) hp
    rw [Int.abs_eq_natAbs] at hle
    rw [if_neg hbf, h1]
    refine ⟨clampPan_sign_min p _ hp, fun _ => ⟨h2, ?_⟩, ?_⟩
    · omega
    · intro hm
      rw [hm] at hle ⊢
      omega

/-- C4: the centring invariant, for each axis and every rotation.  Whenever the scaled bitmap
axis is strictly shorter than the target axis it is compared with, the target offset is
`(targetAxis - bitmapAxis) / 2` when the requested pan is 0; for every requested pan below
2^31 in magnitude the offset differs from that unpanned offset by exactly the magnitude of the
effective pan, and lies between 0 and `targetAxis - bitmapAxis`. -/
theorem centering_invariant (rotate scaling xpan ypan : Int)
    (image_width image_height fb_maxx fb_maxy : Nat)
    (hfx : fb_maxx < 2147483648) (hfy : fb_maxy < 2147483648)
    (hxp : |xpan| < 2147483648) (hyp : |ypan| < 2147483648)
    (hrot : rotate = 0 ∨ rotate = 1 ∨ rotate = 2 ∨ rotate = 3) :
    ∃ g, planGeometry rotate scaling xpan ypan image_width image_height fb_maxx fb_maxy = some g ∧
      ((scaledAxes rotate g.scale image_width image_height).1 < fb_maxx →
        (xpan = 0 →
          g.ox = (fb_maxx - (scaledAxes rotate g.scale image_width image_height).1) / 2) ∧
        |(g.ox : Int) -
            ((fb_maxx - (scaledAxes rotate g.scale image_width image_height).1) / 2 : Nat)|
          = |g.xpan| ∧
        g.ox ≤ fb_maxx - (scaledAxes rotate g.scale image_width image_height).1) ∧
      ((scaledAxes rotate g.scale image_width image_height).2 < fb_maxy →
        (ypan = 0 →
          g.oy = (fb_maxy - (scaledAxes rotate g.scale image_width image_height).2) / 2) ∧
        |(g.oy : Int) -
            ((fb_maxy - (scaledAxes rotate g.scale image_width image_height).2) / 2 : Nat)|
          = |g.ypan| ∧
        g.oy ≤ fb_maxy - (scaledAxes rotate g.scale image_width image_height).2) := by
  have hfx' : fb_maxx < 4294967296 := by omega
  have hfy' : fb_maxy < 4294967296 := by omega
  rcases hrot with r | r | r | r <;> subst r
  · exact ⟨_, rfl, axis_centering _ _ _ hfx' hxp, axis_centering _ _ _ hfy' hyp⟩
  · exact ⟨_, rfl, axis_centering _ _ _ hfx' hxp, axis_centering _ _ _ hfy' hyp⟩
  · exact ⟨_, rfl, axis_centering _ _ _ hfx' hxp, axis_centering _ _ _ hfy' hyp⟩
  · exact ⟨_, rfl, axis_centering _ _ _ hfx' hxp, axis_centering _ _ _ hfy' hyp⟩


/-- C4, the scenario of the specification: source 200x100 on a 320x240 target, rotation 0,
FIT mode, pan (0,0), gives scale 1 and the centred offsets `ox = 60`, `oy = 70`. -/
theorem centering_invariant_witness :
    planGeometry 0 0 0 0 200 100 320 240 = some ⟨⟨1, 1⟩, 200, 100, 60, 70, 0, 0, 0, 0⟩ ∧
    ∃ g, planGeometry 0 0 0 0 200 100 320 240 = some g ∧
      ((scaledAxes 0 g.scale 200 100).1 < 320 →
        ((0 : Int) = 0 → g.ox = (320 - (scaledAxes 0 g.scale 200 100).1) / 2) ∧
        |(g.ox : Int) - ((320 - (scaledAxes 0 g.scale 200 100).1) / 2 : Nat)| = |g.xpan| ∧
        g.ox ≤ 320 - (scaledAxes 0 g.scale 200 100).1) ∧
      ((scaledAxes 0 g.scale 200 100).2 < 240 →
        ((0 : Int) = 0 → g.oy = (240 - (scaledAxes 0 g.scale 200 100).2) / 2) ∧
        |(g.oy : Int) - ((240 - (scaledAxes 0 g.scale 200 100).2) / 2 : Nat)| = |g.ypan| ∧
        g.oy ≤ 240 - (scaledAxes 0 g.scale 200 100).2) :=
  ⟨by decide, centering_invariant 0 0 0 0 200 100 320 240 (by decide) (by decide)
    (by decide) (by decide) (by decide)⟩

/-- C5: the pan is clamped by a sign-preserving magnitude cap on each axis.  For every
requested pan `p` below 2^31 in magnitude the effective pan is `sign p * min |p| m`, where `m`
is the centring offset of a centred axis and the discarded margin of a cropped one; on a
cropped axis the sample offset is `m + effectivePan`, hence at most `2 * m`; and the effective
pan is 0 when `m = 0`. -/
theorem pan_clamp_sign_preserving (rotate scaling xpan ypan : Int)
    (image_width image_height fb_maxx fb_maxy : Nat)
    (hfx : fb_maxx < 2147483648) (hfy : fb_maxy < 2147483648)
    (hxp : |xpan| < 2147483648) (hyp : |ypan| < 2147483648)
    (hrot : rotate = 0 ∨ rotate = 1 ∨ rotate = 2 ∨ rotate = 3) :
    ∃ g, planGeometry rotate scaling xpan ypan image_width image_height fb_maxx fb_maxy = some g ∧
      (g.xpan = Int.sign xpan * min |xpan|
          (margin (scaledAxes rotate g.scale image_width image_height).1 fb_maxx : Int) ∧
        (¬ (scaledAxes rotate g.scale image_width image_height).1 < fb_maxx →
          ((sampleOffsets rotate g).1 : Int)
            = (margin (scaledAxes rotate g.scale image_width image_height).1 fb_maxx : Int)
              + g.xpan ∧
          (sampleOffsets rotate g).1
            ≤ 2 * margin (scaledAxes rotate g.scale image_width image_height).1 fb_maxx) ∧
        (margin (scaledAxes rotate g.scale image_width image_height).1 fb_maxx = 0 →
          g.xpan = 0)) ∧
      (g.ypan = Int.sign ypan * min |ypan|
          (margin (scaledAxes rotate g.scale image_width image_height).2 fb_maxy : Int) ∧
        (¬ (scaledAxes rotate g.scale image_width image_height).2 < fb_maxy →
          ((sampleOffsets rotate g).2 : Int)
            = (margin (scaledAxes rotate g.scale image_width image_height).2 fb_maxy : Int)
              + g.ypan ∧
          (sampleOffsets rotate g).2
            ≤ 2 * margin (scaledAxes rotate g.scale image_width image_height).2 fb_maxy) ∧
        (margin (scaledAxes rotate g.scale image_width image_height).2 fb_maxy = 0 →
          g.ypan = 0)) := by
  have hfx' : fb_maxx < 4294967296 := by omega
  have hfy' : fb_maxy < 4294967296 := by omega
  rcases hrot with r | r | r | r <;> subst r
  · exact ⟨_, rfl, axis_pan_clamp _ _ _ (scaleDown_lt _ _) hfx' hxp,
      axis_pan_clamp _ _ _ (scaleDown_lt _ _) hfy' hyp⟩
  · exact ⟨_, rfl, axis_pan_clamp _ _ _ (scaleDown_lt _ _) hfx' hxp,
      axis_pan_clamp _ _ _ (scaleDown_lt _ _) hfy' hyp⟩
  · exact ⟨_, rfl, axis_pan_clamp _ _ _ (scaleDown_lt _ _) hfx' hxp,
      axis_pan_clamp _ _ _ (scaleDown_lt _ _) hfy' hyp⟩
  · exact ⟨_, rfl, axis_pan_clamp _ _ _ (scaleDown_lt _ _) hfx' hxp,
      axis_pan_clamp _ _ _ (scaleDown_lt _ _) hfy' hyp⟩

/-- C5 at a concrete input: an 800x600 source shown 1:1 on a 320x240 target with the requested
pan (-1000, 50).  Both axes are cropped (margins 240 and 180); the effective pan is
(-240, 50), `scanline_offset = 0` and `start_scanline = 230`. -/
theorem pan_clamp_sign_preserving_witness :
    planGeometry 0 1 (-1000) 50 800 600 320 240
      = some ⟨⟨1, 1⟩, 320, 240, 0, 0, 0, 230, -240, 50⟩ ∧
    ∃ g, planGeometry 0 1 (-1000) 50 800 600 320 240 = some g ∧
      (g.xpan = Int.sign (-1000) * min |(-1000 : Int)|
          (margin (scaledAxes 0 g.scale 800 600).1 320 : Int) ∧
        (¬ (scaledAxes 0 g.scale 800 600).1 < 320 →
          ((sampleOffsets 0 g).1 : Int)
            = (margin (scaledAxes 0 g.scale 800 600).1 320 : Int) + g.xpan ∧
          (sampleOffsets 0 g).1 ≤ 2 * margin (scaledAxes 0 g.scale 800 600).1 320) ∧
        (margin (scaledAxes 0 g.scale 800 600).1 320 = 0 → g.xpan = 0)) ∧
      (g.ypan = Int.sign 50 * min |(50 : Int)|
          (margin (scaledAxes 0 g.scale 800 600).2 240 : Int) ∧
        (¬ (scaledAxes 0 g.scale 800 600).2 < 240 →
          ((sampleOffsets 0 g).2 : Int)
            = (margin (scaledAxes 0 g.scale 800 600).2 240 : Int) + g.ypan ∧
          (sampleOffsets 0 g).2 ≤ 2 * margin (scaledAxes 0 g.scale 800 600).2 240) ∧
        (margin (scaledAxes 0 g.scale 800 600).2 240 = 0 → g.ypan = 0)) :=
  ⟨by decide, pan_clamp_sign_preserving 0 1 (-1000) 50 800 600 320 240 (by decide) (by decide)
    (by decide) (by decide) (by decide)⟩


/-! ## Facts about `alphamix` -/

theorem channel_eq_shift (x k : Nat) : channel x k = (x >>> (8 * k)) % 2 ^ 8 := by
  unfold channel
  rw [Nat.shiftRight_eq_div_pow]
  norm_num

theorem channel_and (x y k : Nat) : channel (x &&& y) k = channel x k &&& channel y k := by
  simp only [channel_eq_shift]
  apply Nat.eq_of_testBit_eq
  intro i
  simp only [Nat.testBit_mod_two_pow, Nat.testBit_shiftRight, Nat.testBit_and]
  cases decide (i < 8) <;> simp

theorem channel_or (x y k : Nat) : channel (x ||| y) k = channel x k ||| channel y k := by
  simp only [channel_eq_shift]
  apply Nat.eq_of_testBit_eq
  intro i
  simp only [Nat.testBit_mod_two_pow, Nat.testBit_shiftRight, Nat.testBit_or]
  cases decide (i < 8) <;> simp

theorem channel_shiftRight8 (x k : Nat) : channel (x >>> 8) k = channel x (k + 1) := by
  simp only [channel_eq_shift]
  rw [← Nat.shiftRight_add]
  congr 2
  omega

theorem and_255 (c : Nat) : c &&& 255 = c % 256 := Nat.and_pow_two_sub_one_eq_mod c 8

/-- The mask `0x00ff00ff` keeps bytes 0 and 2. -/
theorem and_mask_rb (x : Nat) :
    x &&& 0x00ff00ff = x % 256 + 65536 * (x / 65536 % 256) := by
  have hlt : x &&& 0x00ff00ff ≤ 0x00ff00ff := Nat.and_le_right
  have h0 := channel_and x 0x00ff00ff 0
  have h1 := channel_and x 0x00ff00ff 1
  have h2 := channel_and x 0x00ff00ff 2
  have h3 := channel_and x 0x00ff00ff 3
  have e0 : channel 0x00ff00ff 0 = 255 := by decide
  have e1 : channel 0x00ff00ff 1 = 0 := by decide
  have e2 : channel 0x00ff00ff 2 = 255 := by decide
  have e3 : channel 0x00ff00ff 3 = 0 := by decide
  rw [e0, and_255] at h0
  rw [e1, Nat.and_zero] at h1
  rw [e2, and_255] at h2
  rw [e3, Nat.and_zero] at h3
  simp only [channel] at h0 h1 h2 h3
  norm_num at h0 h1 h2 h3
  omega

/-- The mask `0x0000ff00` keeps byte 1. -/
theorem and_mask_g (x : Nat) : x &&& 0x0000ff00 = 256 * (x / 256 % 256) := by
  have hlt : x &&& 0x0000ff00 ≤ 0x0000ff00 := Nat.and_le_right
  have h0 := channel_and x 0x0000ff00 0
  have h1 := channel_and x 0x0000ff00 1
  have e0 : channel 0x0000ff00 0 = 0 := by decide
  have e1 : channel 0x0000ff00 1 = 255 := by decide
  rw [e0, Nat.and_zero] at h0
  rw [e1, and_255] at h1
  simp only [channel] at h0 h1
  norm_num at h0 h1
  omega

/-- The channels of a blended pixel, in terms of the bytes of the two inputs: the top byte
is the top byte of `src`, and colour byte `k` is `(s * a + d * (255 - a)) / 256`. -/
theorem alphamix_channels (bg src a : Nat) (ha : a ≤ 255) :
    channel (alphamix bg src a) 0
      = (channel src 0 * a + channel bg 0 * (255 - a)) / 256 ∧
    channel (alphamix bg src a) 1
      = (channel src 1 * a + channel bg 1 * (255 - a)) / 256 ∧
    channel (alphamix bg src a) 2
      = (channel src 2 * a + channel bg 2 * (255 - a)) / 256 ∧
    channel (alphamix bg src a) 3 = channel src 3 := by
  have hsub : usub 0xff a = 255 - a := by
    unfold usub
    omega
  -- the four products, bounded by 255 * 255
  have bound : ∀ s d : Nat, s < 256 → d < 256 → s * a + d * (255 - a) ≤ 65025 := by
    intro s d hs hd
    have h1 : s * a ≤ 255 * a := Nat.mul_le_mul_right _ (by omega)
    have h2 : d * (255 - a) ≤ 255 * (255 - a) := Nat.mul_le_mul_right _ (by omega)
    omega
  have hs0 : src % 256 < 256 := Nat.mod_lt _ (by decide)
  have hs1 : src / 256 % 256 < 256 := Nat.mod_lt _ (by decide)
  have hs2 : src / 65536 % 256 < 256 := Nat.mod_lt _ (by decide)
  have hd0 : bg % 256 < 256 := Nat.mod_lt _ (by decide)
  have hd1 : bg / 256 % 256 < 256 := Nat.mod_lt _ (by decide)
  have hd2 : bg / 65536 % 256 < 256 := Nat.mod_lt _ (by decide)
  have b0 := bound _ _ hs0 hd0
  have b1 := bound _ _ hs1 hd1
  have b2 := bound _ _ hs2 hd2
  have hRB : (src &&& 0x00ff00ff) * a + (bg &&& 0x00ff00ff) * (255 - a)
      = (src % 256 * a + bg % 256 * (255 - a))
        + 65536 * (src / 65536 % 256 * a + bg / 65536 % 256 * (255 - a)) := by
    rw [and_mask_rb, and_mask_rb]
    ring
  have hG : (src &&& 0x0000ff00) * a + (bg &&& 0x0000ff00) * (255 - a)
      = 256 * (src / 256 % 256 * a + bg / 256 % 256 * (255 - a)) := by
    rw [and_mask_g, and_mask_g]
    ring
  have hRB' : u32 (u32 ((src &&& 0x00ff00ff) * a) + u32 ((bg &&& 0x00ff00ff) * usub 0xff a))
      = (src % 256 * a + bg % 256 * (255 - a))
        + 65536 * (src / 65536 % 256 * a + bg / 65536 % 256 * (255 - a)) := by
    rw [hsub, ← hRB]
    unfold u32
    omega
  have hG' : u32 (u32 ((src &&& 0x0000ff00) * a) + u32 ((bg &&& 0x0000ff00) * usub 0xff a))
      = 256 * (src / 256 % 256 * a + bg / 256 % 256 * (255 - a)) := by
    rw [hsub, ← hG]
    unfold u32
    omega
  have cs0 : channel src 0 = src % 256 := by simp [channel]
  have cs1 : channel src 1 = src / 256 % 256 := by simp [channel]
  have cs2 : channel src 2 = src / 65536 % 256 := by simp [channel]
  have cd0 : channel bg 0 = bg % 256 := by simp [channel]
  have cd1 : channel bg 1 = bg / 256 % 256 := by simp [channel]
  have cd2 : channel bg 2 = bg / 65536 % 256 := by simp [channel]
  unfold alphamix
  simp only [hRB', hG', cs0, cs1, cs2, cd0, cd1, cd2]
  generalize src % 256 * a + bg % 256 * (255 - a) = p0 at *
  generalize src / 256 % 256 * a + bg / 256 % 256 * (255 - a) = p1 at *
  generalize src / 65536 % 256 * a + bg / 65536 % 256 * (255 - a) = p2 at *
  have m0 : channel 0xff000000 0 = 0 := by decide
  have m1 : channel 0xff000000 1 = 0 := by decide
  have m2 : channel 0xff000000 2 = 0 := by decide
  have m3 : channel 0xff000000 3 = 255 := by decide
  have r1 : channel 0xff00ff00 1 = 255 := by decide
  have r2 : channel 0xff00ff00 2 = 0 := by decide
  have r3 : channel 0xff00ff00 3 = 255 := by decide
  have r4 : channel 0xff00ff00 4 = 0 := by decide
  have g1 : channel 0x00ff0000 1 = 0 := by decide
  have g2 : channel 0x00ff0000 2 = 255 := by decide
  have g3 : channel 0x00ff0000 3 = 0 := by decide
  have g4 : channel 0x00ff0000 4 = 0 := by decide
  simp only [channel_or, channel_and, channel_shiftRight8, m0, m1, m2, m3, r1, r2, r3, r4,
    g1, g2, g3, g4, Nat.and_zero, Nat.zero_or, Nat.or_zero, and_255]
  simp only [channel]
  norm_num
  refine ⟨?_, ?_, ?_⟩ <;> omega


/-- C6, as the code behaves: for every background pixel, source pixel and alpha in [2,255]
(indeed every alpha up to 255), each of the three colour bytes of `alphamix bg src a` is
`(s * a + d * (255 - a)) / 256`, the sum shifted right by 8 bits, where `s` and `d` are the
same byte of `src` and `bg`. -/
theorem alphamix_colour_bytes_shift8 (bg src a k : Nat) (ha : a ≤ 255) (hk : k < 3) :
    channel (alphamix bg src a) k = (channel src k * a + channel bg k * (255 - a)) / 256 := by
  obtain ⟨h0, h1, h2, _⟩ := alphamix_channels bg src a ha
  have hk' : k = 0 ∨ k = 1 ∨ k = 2 := by omega
  rcases hk' with h | h | h <;> subst h
  · exact h0
  · exact h1
  · exact h2

/-- C6 at a concrete input: alpha 128, the green byte of source `0xff405060` over background
`0xff102030`. -/
theorem alphamix_colour_bytes_shift8_witness :
    channel (alphamix 0xff102030 0xff405060 128) 1
      = (channel 0xff405060 1 * 128 + channel 0xff102030 1 * (255 - 128)) / 256 :=
  alphamix_colour_bytes_shift8 0xff102030 0xff405060 128 1 (by decide) (by decide)

/-- C6 fails as stated: blending the blue byte 255 with itself at alpha 128 gives 254, where
the formula with the divisor 255 gives 255. -/
theorem alphamix_differs_from_div255 :
    channel (alphamix 0x000000ff 0x000000ff 128) 0 = 254 ∧
    (channel 0x000000ff 0 * 128 + channel 0x000000ff 0 * (255 - 128)) / 255 = 255 := by
  decide

/-- C7, as the code behaves: with alpha 255 the result does not depend on the background;
the top byte is the top byte of `src`, and each colour byte `s` of `src` becomes
`s * 255 / 256`, which equals `s` only for `s = 0`. -/
theorem alphamix_255_darkens (bg src : Nat) :
    channel (alphamix bg src 255) 3 = channel src 3 ∧
    (channel (alphamix bg src 255) 0 = channel src 0 * 255 / 256 ∧
      (channel (alphamix bg src 255) 0 = channel src 0 ↔ channel src 0 = 0)) ∧
    (channel (alphamix bg src 255) 1 = channel src 1 * 255 / 256 ∧
      (channel (alphamix bg src 255) 1 = channel src 1 ↔ channel src 1 = 0)) ∧
    (channel (alphamix bg src 255) 2 = channel src 2 * 255 / 256 ∧
      (channel (alphamix bg src 255) 2 = channel src 2 ↔ channel src 2 = 0)) := by
  obtain ⟨h0, h1, h2, h3⟩ := alphamix_channels bg src 255 (Nat.le_refl _)
  have hc : ∀ k, channel src k < 256 := fun k => Nat.mod_lt _ (by decide)
  have c0 := hc 0
  have c1 := hc 1
  have c2 := hc 2
  simp only [Nat.sub_self, Nat.mul_zero, Nat.add_zero] at h0 h1 h2
  rw [h0, h1, h2, h3]
  refine ⟨rfl, ⟨rfl, ?_⟩, ⟨rfl, ?_⟩, ⟨rfl, ?_⟩⟩ <;> omega

/-- C7 fails as stated: with alpha 255 the opaque white source pixel `0xffffffff` becomes
`0xfffefefe`, not the source pixel. -/
theorem alphamix_255_differs_from_source :
    alphamix 0 0xffffffff 255 = 0xfffefefe ∧ alphamix 0 0xffffffff 255 ≠ 0xffffffff := by
  decide

/-! ## Facts about the 16 bit conversion -/

/-- Within a framebuffer whose byte size fits an `unsigned int`, the offsets of the row copy
are computed without wrap-around, and the rows lie one after the other. -/
theorem copyRows_offsets (B X Y ox oy w h i : Nat) (hB : 0 < B) (hY : Y < 4294967296)
    (hsize : B * (X * Y) < 4294967296) (hx : ox + w ≤ X) (hy : oy + h ≤ Y) (hi : i < h) :
    u32 (B * u32 (u32 (X * u32 (i + oy)) + ox)) = B * (X * (i + oy) + ox) ∧
    u32 (u32 (i * w) * B) = i * w * B ∧ u32 (w * B) = w * B ∧
    B * (X * (i + oy) + ox) + w * B ≤ B * (X * (i + 1 + oy) + ox) := by
  have hXY : X * Y ≤ B * (X * Y) := Nat.le_mul_of_pos_left _ hB
  have h1 : X * (i + oy) + X ≤ X * Y := by
    calc X * (i + oy) + X = X * (i + oy + 1) := by ring
      _ ≤ X * Y := Nat.mul_le_mul_left _ (by omega)
  have h2 : B * (X * (i + oy) + ox) ≤ B * (X * Y) := Nat.mul_le_mul_left _ (by omega)
  have h3 : i * w ≤ X * Y := by
    calc i * w ≤ Y * X := Nat.mul_le_mul (by omega) (by omega)
      _ = X * Y := Nat.mul_comm _ _
  have h4 : i * w * B ≤ B * (X * Y) := by
    calc i * w * B ≤ X * Y * B := Nat.mul_le_mul_right _ h3
      _ = B * (X * Y) := Nat.mul_comm _ _
  have h5 : w * B ≤ B * (X * Y) := by
    calc w * B ≤ X * Y * B := Nat.mul_le_mul_right _ (by
          calc w ≤ X := by omega
            _ ≤ X * Y := Nat.le_mul_of_pos_right _ (by omega))
      _ = B * (X * Y) := Nat.mul_comm _ _
  have h6 : B * (X * (i + oy) + ox) + w * B ≤ B * (X * (i + 1 + oy) + ox) := by
    have : X * (i + 1 + oy) = X * (i + oy) + X := by ring
    rw [this]
    calc B * (X * (i + oy) + ox) + w * B = B * (X * (i + oy) + ox + w) := by ring
      _ ≤ B * (X * (i + oy) + X + ox) := Nat.mul_le_mul_left _ (by omega)
  have e1 : u32 (i + oy) = i + oy := Nat.mod_eq_of_lt (by omega)
  have e2 : u32 (X * (i + oy)) = X * (i + oy) := Nat.mod_eq_of_lt (by omega)
  have e3 : u32 (X * (i + oy) + ox) = X * (i + oy) + ox := Nat.mod_eq_of_lt (by omega)
  have e4 : u32 (B * (X * (i + oy) + ox)) = B * (X * (i + oy) + ox) :=
    Nat.mod_eq_of_lt (by omega)
  have e5 : u32 (i * w) = i * w := Nat.mod_eq_of_lt (by omega)
  have e6 : u32 (i * w * B) = i * w * B := Nat.mod_eq_of_lt (by omega)
  have e7 : u32 (w * B) = w * B := Nat.mod_eq_of_lt (by omega)
  rw [e1, e2, e3, e4, e5, e6, e7]
  exact ⟨rfl, rfl, rfl, h6⟩

/-- Row `i` ends before row `j` begins when `i < j`. -/
theorem copyRows_rows_ordered (B X ox oy w : Nat) (hx : ox + w ≤ X) (i j : Nat) (hij : i < j) :
    B * (X * (i + oy) + ox) + w * B ≤ B * (X * (j + oy) + ox) := by
  have h1 : X * (i + oy) + X ≤ X * (j + oy) := by
    calc X * (i + oy) + X = X * (i + oy + 1) := by ring
      _ ≤ X * (j + oy) := Nat.mul_le_mul_left _ (by omega)
  calc B * (X * (i + oy) + ox) + w * B = B * (X * (i + oy) + ox + w) := by ring
    _ ≤ B * (X * (j + oy) + ox) := Nat.mul_le_mul_left _ (by omega)

/-- A byte that lies in none of the first `n` rows is not changed by the row copy. -/
theorem copyRows_outside (B X Y ox oy w h : Nat) (bp fbm : Mem) (hB : 0 < B)
    (hY : Y < 4294967296) (hsize : B * (X * Y) < 4294967296) (hx : ox + w ≤ X)
    (hy : oy + h ≤ Y) (p : Nat) :
    ∀ n, n ≤ h →
      (∀ i, i < n → ¬ (B * (X * (i + oy) + ox) ≤ p ∧ p < B * (X * (i + oy) + ox) + w * B)) →
      copyRows B X ox oy w bp n fbm p = fbm p := by
  intro n
  induction n with
  | zero => intro _ _; rfl
  | succ n ih =>
    intro hn hout
    obtain ⟨e1, _, e3, _⟩ := copyRows_offsets B X Y ox oy w h n hB hY hsize hx hy (by omega)
    have hrow := hout n (Nat.lt_succ_self n)
    show memcpy _ _ _ _ _ p = fbm p
    unfold memcpy
    rw [e1, e3, if_neg hrow]
    exact ih (by omega) (fun i hi => hout i (by omega))

/-- A byte of row `i` holds, after the row copy, the corresponding byte of the bitmap. -/
theorem copyRows_inside (B X Y ox oy w h : Nat) (bp fbm : Mem) (hB : 0 < B)
    (hY : Y < 4294967296) (hsize : B * (X * Y) < 4294967296) (hx : ox + w ≤ X)
    (hy : oy + h ≤ Y) (i p : Nat)
    (hlo : B * (X * (i + oy) + ox) ≤ p) (hhi : p < B * (X * (i + oy) + ox) + w * B) :
    ∀ n, n ≤ h → i < n →
      copyRows B X ox oy w bp n fbm p = bp (i * w * B + (p - B * (X * (i + oy) + ox))) := by
  intro n
  induction n with
  | zero => intro _ hi; exact absurd hi (Nat.not_lt_zero _)
  | succ n ih =>
    intro hn hi
    obtain ⟨e1, e2, e3, _⟩ := copyRows_offsets B X Y ox oy w h n hB hY hsize hx hy (by omega)
    show memcpy _ _ _ _ _ p = _
    unfold memcpy
    rw [e1, e2, e3]
    by_cases hin : i = n
    · subst hin
      rw [if_pos ⟨hlo, hhi⟩]
    · have hlt : i < n := by omega
      have hord := copyRows_rows_ordered B X ox oy w hx i n hlt
      rw [if_neg (by omega)]
      exact ih (by omega) hlt


/-- C9: the row-copy composite.  On a framebuffer whose byte size fits the `unsigned int`
passed to `mmap`, and for a placement with `ox + fb_bitmap_width ≤ fb_maxx` and
`oy + fb_bitmap_height ≤ fb_maxy`: after the copy (`clr` 0 or 1) every byte of the target
pixel at row `oy + r`, column `ox + k` equals the same byte of the final bitmap pixel
`(r, k)`; every byte outside the placed rectangle is unchanged under Opaque (`clr = 1`), and
every byte of the target outside the placed rectangle is zero under Clear (`clr = 0`). -/
theorem row_copy_composite (fb_bytes fb_maxx fb_maxy ox oy fb_bitmap_width fb_bitmap_height : Nat)
    (bp fbm : Mem) (hB : 0 < fb_bytes) (hY : fb_maxy < 4294967296)
    (hsize : fb_bytes * (fb_maxx * fb_maxy) < 4294967296)
    (hx : ox + fb_bitmap_width ≤ fb_maxx) (hy : oy + fb_bitmap_height ≤ fb_maxy) :
    (∀ clr : Int, clr = 0 ∨ clr = 1 →
      ∀ r k z, r < fb_bitmap_height → k < fb_bitmap_width → z < fb_bytes →
        composite clr fb_bytes fb_maxx fb_maxy ox oy fb_bitmap_width fb_bitmap_height bp fbm
            (fb_bytes * (fb_maxx * (oy + r) + ox + k) + z)
          = bp (fb_bytes * (r * fb_bitmap_width + k) + z)) ∧
    (∀ p, (∀ r k z, r < fb_bitmap_height → k < fb_bitmap_width → z < fb_bytes →
          p ≠ fb_bytes * (fb_maxx * (oy + r) + ox + k) + z) →
      composite 1 fb_bytes fb_maxx fb_maxy ox oy fb_bitmap_width fb_bitmap_height bp fbm p
          = fbm p ∧
      (p < fb_bytes * (fb_maxx * fb_maxy) →
        composite 0 fb_bytes fb_maxx fb_maxy ox oy fb_bitmap_width fb_bitmap_height bp fbm p
          = 0)) := by
  constructor
  · intro clr hclr r k z hr hk hz
    have hsplit : fb_bytes * (fb_maxx * (oy + r) + ox + k) + z
        = fb_bytes * (fb_maxx * (r + oy) + ox) + (fb_bytes * k + z) := by ring
    have hkz : fb_bytes * k + z < fb_bitmap_width * fb_bytes := by
      calc fb_bytes * k + z < fb_bytes * k + fb_bytes := by omega
        _ = (k + 1) * fb_bytes := by ring
        _ ≤ fb_bitmap_width * fb_bytes := Nat.mul_le_mul_right _ (by omega)
    have hsrc : r * fb_bitmap_width * fb_bytes + (fb_bytes * k + z)
        = fb_bytes * (r * fb_bitmap_width + k) + z := by ring
    have key : ∀ m : Mem,
        copyRows fb_bytes fb_maxx ox oy fb_bitmap_width bp fb_bitmap_height m
            (fb_bytes * (fb_maxx * (oy + r) + ox + k) + z)
          = bp (fb_bytes * (r * fb_bitmap_width + k) + z) := by
      intro m
      rw [copyRows_inside fb_bytes fb_maxx fb_maxy ox oy fb_bitmap_width fb_bitmap_height bp m
        hB hY hsize hx hy r _ (by omega) (by omega) fb_bitmap_height (Nat.le_refl _) hr]
      rw [hsplit, Nat.add_sub_cancel_left, hsrc]
    unfold composite
    rw [if_pos hclr]
    exact key _
  · intro p hout
    have hrows : ∀ i, i < fb_bitmap_height →
        ¬ (fb_bytes * (fb_maxx * (i + oy) + ox) ≤ p ∧
          p < fb_bytes * (fb_maxx * (i + oy) + ox) + fb_bitmap_width * fb_bytes) := by
      intro i hi ⟨hlo, hhi⟩
      have hq : (p - fb_bytes * (fb_maxx * (i + oy) + ox)) / fb_bytes < fb_bitmap_width := by
        rw [Nat.div_lt_iff_lt_mul hB]
        omega
      have hz : (p - fb_bytes * (fb_maxx * (i + oy) + ox)) % fb_bytes < fb_bytes :=
        Nat.mod_lt _ hB
      apply hout i _ _ hi hq hz
      have hdm := Nat.div_add_mod (p - fb_bytes * (fb_maxx * (i + oy) + ox)) fb_bytes
      calc p = fb_bytes * (fb_maxx * (i + oy) + ox)
              + (p - fb_bytes * (fb_maxx * (i + oy) + ox)) := by omega
        _ = fb_bytes * (fb_maxx * (i + oy) + ox)
              + (fb_bytes * ((p - fb_bytes * (fb_maxx * (i + oy) + ox)) / fb_bytes)
                + (p - fb_bytes * (fb_maxx * (i + oy) + ox)) % fb_bytes) := by rw [hdm]
        _ = _ := by ring
    have key : ∀ m : Mem,
        copyRows fb_bytes fb_maxx ox oy fb_bitmap_width bp fb_bitmap_height m p = m p :=
      fun m => copyRows_outside fb_bytes fb_maxx fb_maxy ox oy fb_bitmap_width fb_bitmap_height
        bp m hB hY hsize hx hy p fb_bitmap_height (Nat.le_refl _) hrows
    constructor
    · unfold composite
      rw [if_pos (Or.inr rfl), key]
      simp
    · intro hp
      have hXY : fb_maxx * fb_maxy ≤ fb_bytes * (fb_maxx * fb_maxy) :=
        Nat.le_mul_of_pos_left _ hB
      have e1 : u32 (fb_maxx * fb_maxy) = fb_maxx * fb_maxy := Nat.mod_eq_of_lt (by omega)
      have e2 : u32 (fb_maxx * fb_maxy * fb_bytes) = fb_bytes * (fb_maxx * fb_maxy) := by
        rw [Nat.mul_comm]
        exact Nat.mod_eq_of_lt hsize
      unfold composite
      rw [if_pos (Or.inl rfl), key, e1, e2]
      simp [memset, hp]


/-- C9 at a concrete input: a 2x2 bitmap with bytes `p % 251 + 1` placed at (1, 0) on a 3x2
framebuffer of 4-byte pixels that holds the byte 7 everywhere. -/
theorem row_copy_composite_witness :
    (∀ clr : Int, clr = 0 ∨ clr = 1 →
      ∀ r k z, r < 2 → k < 2 → z < 4 →
        composite clr 4 3 2 1 0 2 2 (fun p => p % 251 + 1) (fun _ => 7)
            (4 * (3 * (0 + r) + 1 + k) + z)
          = (fun p => p % 251 + 1) (4 * (r * 2 + k) + z)) ∧
    (∀ p, (∀ r k z, r < 2 → k < 2 → z < 4 → p ≠ 4 * (3 * (0 + r) + 1 + k) + z) →
      composite 1 4 3 2 1 0 2 2 (fun p => p % 251 + 1) (fun _ => 7) p = (fun _ => 7) p ∧
      (p < 4 * (3 * 2) →
        composite 0 4 3 2 1 0 2 2 (fun p => p % 251 + 1) (fun _ => 7) p = 0)) :=
  row_copy_composite 4 3 2 1 0 2 2 (fun p => p % 251 + 1) (fun _ => 7)
    (by decide) (by decide) (by decide) (by decide) (by decide)

/-- C9 fails as stated: the byte offsets of the row copy are `unsigned int`.  On a
40000x40000 framebuffer of 4-byte pixels a 1x1 bitmap with the bytes 255 is placed at column 0
of row 30000, inside the surface.  The target pixel at byte offset `4 * (40000 * 30000)` keeps
the byte 0, and the bitmap byte is stored at the wrapped offset 505032704, a byte outside the
placed rectangle, which does not keep its value under Opaque. -/
theorem row_copy_wraps_on_large_surface :
    0 + 1 ≤ 40000 ∧ 30000 + 1 ≤ 40000 ∧
    composite 1 4 40000 40000 0 30000 1 1 (fun _ => 255) (fun _ => 0)
        (4 * (40000 * (30000 + 0) + 0 + 0) + 0) = 0 ∧
    (fun _ => 255 : Mem) (4 * (0 * 1 + 0) + 0) = 255 ∧
    (∀ r, r < 1 → ∀ k, k < 1 → ∀ z, z < 4 →
      505032704 ≠ 4 * (40000 * (30000 + r) + 0 + k) + z) ∧
    composite 1 4 40000 40000 0 30000 1 1 (fun _ => 255) (fun _ => 0) 505032704 = 255 ∧
    (fun _ => 0 : Mem) 505032704 = 0 ∧
    u32 (4 * u32 (u32 (40000 * u32 (0 + 30000)) + 0)) = 505032704 := by
  decide

/-- C8 fails on the code: the outer loop of the alpha mix runs while
`i < fb_bitmap_height - 2`.  A white 1x3 bitmap mixed with alpha 128 onto a black 2x3
framebuffer changes the pixel of row 0 only; the pixels of rows 1 and 2 keep the value 0,
where the claim asks for `alphamix 0 0xffffffff 128 = 0xff7f7f7f`.  For a bitmap of height 1
the `unsigned int` bound `fb_bitmap_height - 2` wraps to 4294967295. -/
theorem alpha_mix_skips_last_two_rows :
    rd32 (composite 128 4 2 3 0 0 1 3 (fun _ => 255) (fun _ => 0)) (4 * (2 * (0 + 0) + 0 + 0))
      = alphamix 0 0xffffffff 128 ∧
    rd32 (composite 128 4 2 3 0 0 1 3 (fun _ => 255) (fun _ => 0)) (4 * (2 * (0 + 1) + 0 + 0))
      = 0 ∧
    rd32 (composite 128 4 2 3 0 0 1 3 (fun _ => 255) (fun _ => 0)) (4 * (2 * (0 + 2) + 0 + 0))
      = 0 ∧
    alphamix 0 0xffffffff 128 = 0xff7f7f7f ∧
    usub 1 2 = 4294967295 := by
  decide

/-! ## Facts about the scanline conversion -/

/-- A row of a 32 bit bitmap that lies below `2^32`: the bytes of its first `n` pixels after
the conversion loop, and the bytes the loop leaves alone. -/
theorem convertRow32_spec (lb : Mem) (scale : Scale) (scanline_offset c sz : Nat) (bp : Mem) :
    ∀ n, sz + 4 * n ≤ 4294967296 →
      (∀ i, i < n →
        convertRow32 lb scale scanline_offset c sz n bp (sz + 4 * i)
          = lb (lbIndex scale scanline_offset c i 2) ∧
        convertRow32 lb scale scanline_offset c sz n bp (sz + 4 * i + 1)
          = lb (lbIndex scale scanline_offset c i 1) ∧
        convertRow32 lb scale scanline_offset c sz n bp (sz + 4 * i + 2)
          = lb (lbIndex scale scanline_offset c i 0) ∧
        convertRow32 lb scale scanline_offset c sz n bp (sz + 4 * i + 3) = 255) ∧
      (∀ q, q < sz ∨ sz + 4 * n ≤ q →
        convertRow32 lb scale scanline_offset c sz n bp q = bp q) := by
  intro n
  induction n with
  | zero =>
    intro _
    exact ⟨fun i hi => absurd hi (Nat.not_lt_zero _), fun q _ => rfl⟩
  | succ n ih =>
    intro hrow
    obtain ⟨ih1, ih2⟩ := ih (by omega)
    have e0 : u32 (u32 (sz + u32 (n * 4)) + 0) = sz + 4 * n := by unfold u32; omega
    have e1 : u32 (u32 (sz + u32 (n * 4)) + 1) = sz + 4 * n + 1 := by unfold u32; omega
    have e2 : u32 (u32 (sz + u32 (n * 4)) + 2) = sz + 4 * n + 2 := by unfold u32; omega
    have e3 : u32 (u32 (sz + u32 (n * 4)) + 3) = sz + 4 * n + 3 := by unfold u32; omega
    have step : ∀ q, convertRow32 lb scale scanline_offset c sz (n + 1) bp q
        = if q = sz + 4 * n + 3 then 255
          else if q = sz + 4 * n + 2 then lb (lbIndex scale scanline_offset c n 0)
          else if q = sz + 4 * n + 1 then lb (lbIndex scale scanline_offset c n 1)
          else if q = sz + 4 * n then lb (lbIndex scale scanline_offset c n 2)
          else convertRow32 lb scale scanline_offset c sz n bp q := by
      intro q
      show poke (poke (poke (poke _ _ _) _ _) _ _) _ _ q = _
      simp only [poke, e0, e1, e2, e3]
    constructor
    · intro i hi
      by_cases hin : i = n
      · subst hin
        refine ⟨?_, ?_, ?_, ?_⟩ <;> rw [step] <;> split_ifs <;> first | rfl | omega
      · have hlt : i < n := by omega
        obtain ⟨a0, a1, a2, a3⟩ := ih1 i hlt
        refine ⟨?_, ?_, ?_, ?_⟩ <;> rw [step] <;> split_ifs <;>
          first | exact a0 | exact a1 | exact a2 | exact a3 | omega
    · intro q hq
      rw [step, if_neg (by omega), if_neg (by omega), if_neg (by omega), if_neg (by omega)]
      exact ih2 q (by omega)

/-- Without wrap-around the index into the line buffer is `column * c + k`, the column being
`(int)((float) i * scale) + scanline_offset`. -/
theorem lbIndex_eq (scale : Scale) (scanline_offset c i k : Nat) (hk : k ≤ 2)
    (hsrc : (scaleUp32 i scale + scanline_offset) * c + 2 < 4294967296) (hc : 0 < c) :
    lbIndex scale scanline_offset c i k = (scaleUp32 i scale + scanline_offset) * c + k := by
  have h1 : scaleUp32 i scale + scanline_offset
      ≤ (scaleUp32 i scale + scanline_offset) * c := Nat.le_mul_of_pos_right _ hc
  unfold lbIndex sampleColumn32
  have e1 : u32 (scaleUp32 i scale) = scaleUp32 i scale := Nat.mod_eq_of_lt (by omega)
  have e2 : u32 (scaleUp32 i scale + scanline_offset) = scaleUp32 i scale + scanline_offset :=
    Nat.mod_eq_of_lt (by omega)
  have e3 : u32 ((scaleUp32 i scale + scanline_offset) * c)
      = (scaleUp32 i scale + scanline_offset) * c := Nat.mod_eq_of_lt (by omega)
  rw [e1, e2, e3]
  exact Nat.mod_eq_of_lt (by omega)

/-- The bytes of pixel `i` in a row the decode step emits for a 4-byte framebuffer. -/
theorem decodeStep_row32 (bitmap_width bitmap_height : Nat) (scale : Scale)
    (scanline_offset start_scanline c : Nat) (lb : Mem) (n : Nat) (st : DecodeState) (i : Nat)
    (hshow : n > start_scanline)
    (hin : usub n start_scanline * scale.den < bitmap_height * scale.num)
    (hnew : u32 (n * scale.den / scale.num) ≠ st.last_scanline)
    (hrow : st.sz + 4 * bitmap_width ≤ 4294967296) (hi : i < bitmap_width) :
    (decodeStep 4 bitmap_width bitmap_height scale scanline_offset start_scanline c lb n st).bp
        (st.sz + 4 * i)
      = lb (lbIndex scale scanline_offset c i 2) ∧
    (decodeStep 4 bitmap_width bitmap_height scale scanline_offset start_scanline c lb n st).bp
        (st.sz + 4 * i + 1)
      = lb (lbIndex scale scanline_offset c i 1) ∧
    (decodeStep 4 bitmap_width bitmap_height scale scanline_offset start_scanline c lb n st).bp
        (st.sz + 4 * i + 2)
      = lb (lbIndex scale scanline_offset c i 0) ∧
    (decodeStep 4 bitmap_width bitmap_height scale scanline_offset start_scanline c lb n st).bp
        (st.sz + 4 * i + 3) = 255 := by
  have hbp :
      (decodeStep 4 bitmap_width bitmap_height scale scanline_offset start_scanline c lb n st).bp
        = convertRow32 lb scale scanline_offset c st.sz bitmap_width st.bp := by
    unfold decodeStep
    rw [if_pos hshow, if_pos hin, if_pos hnew]
    simp
  rw [hbp]
  exact (convertRow32_spec lb scale scanline_offset c st.sz st.bp bitmap_width hrow).1 i hi

/-- Values of the single-precision rounding: 1/3 is `0x3eaaaaab`, 1/10 is `0x3dcccccd`, 45 is
kept, 25/9 is rounded down, and the ties `2^24 + 1` and `2^24 + 3` go to the even
significand. -/
theorem f32_values :
    f32 ⟨1, 3⟩ = ⟨11184811, 33554432⟩ ∧
    f32 ⟨1, 10⟩ = ⟨13421773, 134217728⟩ ∧
    f32 ⟨45, 1⟩ = ⟨45 * 262144, 262144⟩ ∧
    f32 ⟨25, 9⟩ = ⟨11650844, 4194304⟩ ∧ 11650844 * 9 < 25 * 4194304 ∧
    f32 ⟨16777217, 1⟩ = ⟨16777216, 1⟩ ∧
    f32 ⟨16777219, 1⟩ = ⟨16777220, 1⟩ := by
  decide

/-- C11, as the code behaves: the 32 bit conversion with point sampling.  In every output row
the decode loop emits for a 4-byte framebuffer (the row starts at `sz` and lies below `2^32`),
the four bytes written for pixel `i < bitmap_width` are `[B, G, R, 0xFF]`, where `R`, `G`, `B`
are the bytes `0`, `1`, `2` of the pixel of the scanline `lb` at column
`(int)((float) i * scale) + scanline_offset`, the product computed and rounded in single
precision before the truncation. -/
theorem convert32_writes_bgr_alpha (bitmap_width bitmap_height : Nat) (scale : Scale)
    (scanline_offset start_scanline c : Nat) (lb : Mem) (n : Nat) (st : DecodeState) (i : Nat)
    (hshow : n > start_scanline)
    (hin : usub n start_scanline * scale.den < bitmap_height * scale.num)
    (hnew : u32 (n * scale.den / scale.num) ≠ st.last_scanline)
    (hrow : st.sz + 4 * bitmap_width ≤ 4294967296) (hi : i < bitmap_width) (hc : 0 < c)
    (hsrc : (scaleUp32 i scale + scanline_offset) * c + 2 < 4294967296) :
    (decodeStep 4 bitmap_width bitmap_height scale scanline_offset start_scanline c lb n st).bp
        (st.sz + 4 * i)
      = lb ((scaleUp32 i scale + scanline_offset) * c + 2) ∧
    (decodeStep 4 bitmap_width bitmap_height scale scanline_offset start_scanline c lb n st).bp
        (st.sz + 4 * i + 1)
      = lb ((scaleUp32 i scale + scanline_offset) * c + 1) ∧
    (decodeStep 4 bitmap_width bitmap_height scale scanline_offset start_scanline c lb n st).bp
        (st.sz + 4 * i + 2)
      = lb ((scaleUp32 i scale + scanline_offset) * c + 0) ∧
    (decodeStep 4 bitmap_width bitmap_height scale scanline_offset start_scanline c lb n st).bp
        (st.sz + 4 * i + 3) = 0xFF := by
  obtain ⟨a0, a1, a2, a3⟩ := decodeStep_row32 bitmap_width bitmap_height scale scanline_offset
    start_scanline c lb n st i hshow hin hnew hrow hi
  rw [a0, a1, a2, a3, lbIndex_eq _ _ _ _ 2 (by omega) hsrc hc,
    lbIndex_eq _ _ _ _ 1 (by omega) hsrc hc, lbIndex_eq _ _ _ _ 0 (by omega) hsrc hc]
  exact ⟨rfl, rfl, rfl, rfl⟩

/-- C11 at a concrete input: pixel 45 of a row emitted for the 4000x3000 source on a
1920x1080 target (scale 3000/1080, bitmap width 1440), from the scanline whose byte at offset
`p` is `p % 256`; the sampled column is 124. -/
theorem convert32_writes_bgr_alpha_witness :
    scaleUp32 45 ⟨3000, 1080⟩ = 124 ∧
    ((decodeStep 4 1440 1080 ⟨3000, 1080⟩ 0 0 3 (fun p => p % 256) 3 ⟨fun _ => 0, 0, 0⟩).bp
          (0 + 4 * 45)
        = (fun p => p % 256) ((scaleUp32 45 ⟨3000, 1080⟩ + 0) * 3 + 2) ∧
      (decodeStep 4 1440 1080 ⟨3000, 1080⟩ 0 0 3 (fun p => p % 256) 3 ⟨fun _ => 0, 0, 0⟩).bp
          (0 + 4 * 45 + 1)
        = (fun p => p % 256) ((scaleUp32 45 ⟨3000, 1080⟩ + 0) * 3 + 1) ∧
      (decodeStep 4 1440 1080 ⟨3000, 1080⟩ 0 0 3 (fun p => p % 256) 3 ⟨fun _ => 0, 0, 0⟩).bp
          (0 + 4 * 45 + 2)
        = (fun p => p % 256) ((scaleUp32 45 ⟨3000, 1080⟩ + 0) * 3 + 0) ∧
      (decodeStep 4 1440 1080 ⟨3000, 1080⟩ 0 0 3 (fun p => p % 256) 3 ⟨fun _ => 0, 0, 0⟩).bp
          (0 + 4 * 45 + 3)
        = 0xFF) :=
  ⟨by decide,
    convert32_writes_bgr_alpha 1440 1080 ⟨3000, 1080⟩ 0 0 3 (fun p => p % 256) 3
      ⟨fun _ => 0, 0, 0⟩ 45 (by decide) (by decide) (by decide) (by decide) (by decide)
      (by decide) (by decide)⟩

/-- C11 fails as stated: the sampled column is not `floor(i * scale) + scanline_offset`.  For
the 4000x3000 source on a 1920x1080 target the plan has the scale 3000/1080 and the bitmap
width 1440.  At pixel 45 the program samples column 124, where `floor(45 * 3000/1080)` is 125:
the blue byte written is byte 374 of the scanline, not byte 377.  With the scale read as the
value of the `float` variable, 11650844 / 2^22, the program samples column 25 at pixel 9,
where the floor of the product is 24. -/
theorem sampled_column_differs_from_floor :
    planGeometry 0 0 0 0 4000 3000 1920 1080
      = some ⟨⟨3000, 1080⟩, 1440, 1080, 240, 0, 0, 0, 0, 0⟩ ∧
    scaleUp32 45 ⟨3000, 1080⟩ = 124 ∧ scaleUp 45 ⟨3000, 1080⟩ = 125 ∧
    (decodeStep 4 1440 1080 ⟨3000, 1080⟩ 0 0 3 (fun p => p % 256) 3 ⟨fun _ => 0, 0, 0⟩).bp
        (0 + 4 * 45) = (fun p => p % 256) (124 * 3 + 2) ∧
    (decodeStep 4 1440 1080 ⟨3000, 1080⟩ 0 0 3 (fun p => p % 256) 3 ⟨fun _ => 0, 0, 0⟩).bp
        (0 + 4 * 45) ≠ (fun p => p % 256) ((scaleUp 45 ⟨3000, 1080⟩ + 0) * 3 + 2) ∧
    f32 ⟨3000, 1080⟩ = ⟨11650844, 4194304⟩ ∧
    scaleUp32 9 ⟨11650844, 4194304⟩ = 25 ∧ scaleUp 9 ⟨11650844, 4194304⟩ = 24 := by
  have hidx : lbIndex ⟨3000, 1080⟩ 0 3 45 2 = 374 := by decide
  have hb := (decodeStep_row32 1440 1080 ⟨3000, 1080⟩ 0 0 3 (fun p => p % 256) 3
    ⟨fun _ => 0, 0, 0⟩ 45 (by decide) (by decide) (by decide) (by decide) (by decide)).1
  rw [hidx] at hb
  refine ⟨by decide, by decide, by decide, ?_, ?_, by decide, by decide, by decide⟩
  · rw [hb]
  · rw [hb]
    decide

/-! ## Facts about the placement and the sampling -/

/-- The placed axis never leaves the target axis. -/
theorem placeAxis_inside (b f : Nat) (p : Int) (hb : b < 4294967296) (hf : f < 4294967296)
    (hp : |p| < 2147483648) :
    (placeAxis b f p).offset + (placeAxis b f p).extent ≤ f := by
  by_cases hbf : b < f
  · obtain ⟨_, _, h3⟩ := axis_centering b f p hf hp hbf
    obtain ⟨_, _, _, he⟩ := placeAxis_centered b f p hbf hf hp
    rw [he]
    omega
  · obtain ⟨_, _, ho, he⟩ := placeAxis_cropped b f p hbf hb hp
    rw [ho, he]
    omega

/-- On a framebuffer whose byte size fits an `unsigned int`, every row the row copy writes
ends inside the mapped length. -/
theorem row_within_map (B X Y ox oy w h i : Nat) (hB : 0 < B) (hY : Y < 4294967296)
    (hsize : B * (X * Y) < 4294967296) (hx : ox + w ≤ X) (hy : oy + h ≤ Y) (hi : i < h) :
    u32 (B * u32 (u32 (X * u32 (i + oy)) + ox)) + u32 (w * B) ≤ mapLength X Y B := by
  obtain ⟨e1, _, e3, _⟩ := copyRows_offsets B X Y ox oy w h i hB hY hsize hx hy hi
  have hXY : X * Y ≤ B * (X * Y) := Nat.le_mul_of_pos_left _ hB
  have m1 : u32 (X * Y) = X * Y := Nat.mod_eq_of_lt (by omega)
  have m2 : u32 (X * Y * B) = B * (X * Y) := by
    rw [Nat.mul_comm]
    exact Nat.mod_eq_of_lt hsize
  have h1 : X * (i + oy) + X ≤ X * Y := by
    calc X * (i + oy) + X = X * (i + oy + 1) := by ring
      _ ≤ X * Y := Nat.mul_le_mul_left _ (by omega)
  unfold mapLength
  rw [e1, e3, m1, m2]
  calc B * (X * (i + oy) + ox) + w * B = B * (X * (i + oy) + ox + w) := by ring
    _ ≤ B * (X * Y) := Nat.mul_le_mul_left _ (by omega)

/-- C19, as the code behaves: for every source size, target size below 2^31, rotation, scale
mode and requested pan below 2^31 in magnitude, the plan satisfies
`ox + fb_bitmap_width ≤ fb_maxx` and `oy + fb_bitmap_height ≤ fb_maxy`; and when the byte size
`fb_bytes * fb_maxx * fb_maxy` of the framebuffer is below 2^32, every row the row-copy loop
writes, from offset `fb_bytes * (fb_maxx * (i + oy) + ox)` over `fb_bitmap_width * fb_bytes`
bytes, ends within the mapped length. -/
theorem placed_rectangle_inside_target (rotate scaling xpan ypan : Int)
    (image_width image_height fb_maxx fb_maxy fb_bytes : Nat)
    (hfx : fb_maxx < 2147483648) (hfy : fb_maxy < 2147483648)
    (hxp : |xpan| < 2147483648) (hyp : |ypan| < 2147483648)
    (hrot : rotate = 0 ∨ rotate = 1 ∨ rotate = 2 ∨ rotate = 3) :
    ∃ g, planGeometry rotate scaling xpan ypan image_width image_height fb_maxx fb_maxy = some g ∧
      g.ox + (finalDims rotate g.bitmap_width g.bitmap_height).1 ≤ fb_maxx ∧
      g.oy + (finalDims rotate g.bitmap_width g.bitmap_height).2 ≤ fb_maxy ∧
      (0 < fb_bytes → fb_bytes * (fb_maxx * fb_maxy) < 4294967296 →
        ∀ i, i < (finalDims rotate g.bitmap_width g.bitmap_height).2 →
          u32 (fb_bytes * u32 (u32 (fb_maxx * u32 (i + g.oy)) + g.ox))
              + u32 ((finalDims rotate g.bitmap_width g.bitmap_height).1 * fb_bytes)
            ≤ mapLength fb_maxx fb_maxy fb_bytes) := by
  have hfx1 : fb_maxx < 4294967296 := by omega
  have hfy1 : fb_maxy < 4294967296 := by omega
  have fin : ∀ g : Geometry, ∀ d : Nat × Nat, g.ox + d.1 ≤ fb_maxx → g.oy + d.2 ≤ fb_maxy →
      g.ox + d.1 ≤ fb_maxx ∧ g.oy + d.2 ≤ fb_maxy ∧
      (0 < fb_bytes → fb_bytes * (fb_maxx * fb_maxy) < 4294967296 →
        ∀ i, i < d.2 →
          u32 (fb_bytes * u32 (u32 (fb_maxx * u32 (i + g.oy)) + g.ox)) + u32 (d.1 * fb_bytes)
            ≤ mapLength fb_maxx fb_maxy fb_bytes) :=
    fun g d hx hy => ⟨hx, hy, fun hB hsize i hi =>
      row_within_map fb_bytes fb_maxx fb_maxy g.ox g.oy d.1 d.2 i hB hfy1 hsize hx hy hi⟩
  rcases hrot with r | r | r | r <;> subst r
  · exact ⟨_, rfl, fin _ _ (placeAxis_inside _ _ _ (scaleDown_lt _ _) hfx1 hxp)
      (placeAxis_inside _ _ _ (scaleDown_lt _ _) hfy1 hyp)⟩
  · exact ⟨_, rfl, fin _ _ (placeAxis_inside _ _ _ (scaleDown_lt _ _) hfx1 hxp)
      (placeAxis_inside _ _ _ (scaleDown_lt _ _) hfy1 hyp)⟩
  · exact ⟨_, rfl, fin _ _ (placeAxis_inside _ _ _ (scaleDown_lt _ _) hfx1 hxp)
      (placeAxis_inside _ _ _ (scaleDown_lt _ _) hfy1 hyp)⟩
  · exact ⟨_, rfl, fin _ _ (placeAxis_inside _ _ _ (scaleDown_lt _ _) hfx1 hxp)
      (placeAxis_inside _ _ _ (scaleDown_lt _ _) hfy1 hyp)⟩

/-- C19 at a concrete input: a 640x480 source on a 480x640 target of 4-byte pixels,
rotation 1. -/
theorem placed_rectangle_inside_target_witness :
    ∃ g, planGeometry 1 0 0 0 640 480 480 640 = some g ∧
      g.ox + (finalDims 1 g.bitmap_width g.bitmap_height).1 ≤ 480 ∧
      g.oy + (finalDims 1 g.bitmap_width g.bitmap_height).2 ≤ 640 ∧
      (0 < 4 → 4 * (480 * 640) < 4294967296 →
        ∀ i, i < (finalDims 1 g.bitmap_width g.bitmap_height).2 →
          u32 (4 * u32 (u32 (480 * u32 (i + g.oy)) + g.ox))
              + u32 ((finalDims 1 g.bitmap_width g.bitmap_height).1 * 4)
            ≤ mapLength 480 640 4) :=
  placed_rectangle_inside_target 1 0 0 0 640 480 480 640 4 (by decide) (by decide)
    (by decide) (by decide) (by decide)

/-- C19 fails as stated: a 1x1 source centred on a 40000x40000 target of 4-byte pixels (all
sizes below 2^31) is placed at (19999, 19999); the length passed to `mmap` wraps to
2105032704, and the row copy writes at offset 3199919996, beyond it. -/
theorem row_copy_beyond_wrapped_map :
    planGeometry 0 0 0 0 1 1 40000 40000
      = some ⟨⟨1, 1⟩, 1, 1, 19999, 19999, 0, 0, 0, 0⟩ ∧
    finalDims 0 1 1 = (1, 1) ∧
    mapLength 40000 40000 4 = 2105032704 ∧
    u32 (4 * u32 (u32 (40000 * u32 (0 + 19999)) + 19999)) = 3199919996 ∧
    ¬ (u32 (4 * u32 (u32 (40000 * u32 (0 + 19999)) + 19999)) + u32 (1 * 4)
      ≤ mapLength 40000 40000 4) := by
  decide

/-- C16: for rotation 1 or 3 the final bitmap dimensions are the pre-rotation dimensions
swapped, for rotation 0 or 2 they are the pre-rotation dimensions. -/
theorem final_dims_swap (rotate : Int) (bitmap_width bitmap_height : Nat) :
    ((rotate = 1 ∨ rotate = 3) →
      (finalDims rotate bitmap_width bitmap_height).1 = bitmap_height ∧
      (finalDims rotate bitmap_width bitmap_height).2 = bitmap_width) ∧
    ((rotate = 0 ∨ rotate = 2) →
      (finalDims rotate bitmap_width bitmap_height).1 = bitmap_width ∧
      (finalDims rotate bitmap_width bitmap_height).2 = bitmap_height) := by
  constructor
  · rintro (h | h) <;> subst h <;> exact ⟨rfl, rfl⟩
  · rintro (h | h) <;> subst h <;> exact ⟨rfl, rfl⟩

/-- C16 at a concrete input: a 640x480 bitmap rotated by 90 degrees is 480x640. -/
theorem final_dims_swap_witness :
    (finalDims 1 640 480).1 = 480 ∧ (finalDims 1 640 480).2 = 640 :=
  (final_dims_swap 1 640 480).1 (Or.inl rfl)

/-! ## Facts about the rotations -/

theorem idx_lt (a n b r : Nat) (ha : a < n) (hr : r < b) : a * b + r < n * b := by
  calc a * b + r < a * b + b := by omega
    _ = (a + 1) * b := by ring
    _ ≤ n * b := Nat.mul_le_mul_right _ (by omega)

/-- The innermost loop of `rotate90` copies `n` consecutive bytes to `pos, pos+1, ...`. -/
theorem rotate90Pixel_spec (sp : Mem) (tmp : Nat) (s : Mem × Nat) :
    ∀ n, (rotate90Pixel sp tmp n s).2 = s.2 + n ∧
      (∀ z, z < n → (rotate90Pixel sp tmp n s).1 (s.2 + z) = sp (tmp + z)) ∧
      (∀ q, q < s.2 ∨ s.2 + n ≤ q → (rotate90Pixel sp tmp n s).1 q = s.1 q) := by
  intro n
  induction n with
  | zero => exact ⟨rfl, fun z hz => absurd hz (Nat.not_lt_zero _), fun q _ => rfl⟩
  | succ n ih =>
    obtain ⟨h1, h2, h3⟩ := ih
    have step : ∀ q, (rotate90Pixel sp tmp (n + 1) s).1 q
        = if q = s.2 + n then sp (tmp + n) else (rotate90Pixel sp tmp n s).1 q := by
      intro q
      show poke _ _ _ q = _
      unfold poke
      rw [h1]
    refine ⟨?_, ?_, ?_⟩
    · show (rotate90Pixel sp tmp n s).2 + 1 = s.2 + (n + 1)
      omega
    · intro z hz
      rw [step]
      by_cases hzn : z = n
      · subst hzn
        rw [if_pos rfl]
      · rw [if_neg (by omega)]
        exact h2 z (by omega)
    · intro q hq
      rw [step, if_neg (by omega)]
      exact h3 q (by omega)

/-- One column of `rotate90`: `n` pixels, from the bottom row of the source upwards. -/
theorem rotate90Column_spec (sp : Mem) (xres yres c x : Nat) (s : Mem × Nat) :
    ∀ n, (rotate90Column sp xres yres c x n s).2 = s.2 + n * c ∧
      (∀ k z, k < n → z < c →
        (rotate90Column sp xres yres c x n s).1 (s.2 + k * c + z)
          = sp ((x + (yres - 1 - k) * xres) * c + z)) ∧
      (∀ q, q < s.2 ∨ s.2 + n * c ≤ q → (rotate90Column sp xres yres c x n s).1 q = s.1 q) := by
  intro n
  induction n with
  | zero =>
    exact ⟨by simp [rotate90Column], fun k z hk _ => absurd hk (Nat.not_lt_zero _),
      fun q _ => rfl⟩
  | succ n ih =>
    obtain ⟨h1, h2, h3⟩ := ih
    obtain ⟨p1, p2, p3⟩ := rotate90Pixel_spec sp ((x + (yres - 1 - n) * xres) * c)
      (rotate90Column sp xres yres c x n s) c
    have hsucc : (n + 1) * c = n * c + c := by ring
    refine ⟨?_, ?_, ?_⟩
    · show (rotate90Pixel sp _ c (rotate90Column sp xres yres c x n s)).2 = _
      rw [p1, h1, hsucc]
      omega
    · intro k z hk hz
      show (rotate90Pixel sp _ c (rotate90Column sp xres yres c x n s)).1 _ = _
      by_cases hkn : k = n
      · subst hkn
        rw [← h1]
        exact p2 z hz
      · have hlt := idx_lt k n c z (by omega) hz
        rw [p3 _ (Or.inl (by rw [h1]; omega))]
        exact h2 k z (by omega) hz
    · intro q hq
      show (rotate90Pixel sp _ c (rotate90Column sp xres yres c x n s)).1 q = _
      rw [p3 q (by rw [h1]; omega)]
      exact h3 q (by omega)

/-- The columns of `rotate90`: `n` output rows of `yres` pixels each. -/
theorem rotate90Columns_spec (sp : Mem) (xres yres c : Nat) (s : Mem × Nat) :
    ∀ n, (rotate90Columns sp xres yres c n s).2 = s.2 + n * (yres * c) ∧
      (∀ x k z, x < n → k < yres → z < c →
        (rotate90Columns sp xres yres c n s).1 (s.2 + x * (yres * c) + k * c + z)
          = sp ((x + (yres - 1 - k) * xres) * c + z)) ∧
      (∀ q, q < s.2 ∨ s.2 + n * (yres * c) ≤ q →
        (rotate90Columns sp xres yres c n s).1 q = s.1 q) := by
  intro n
  induction n with
  | zero =>
    exact ⟨by simp [rotate90Columns], fun x k z hx _ _ => absurd hx (Nat.not_lt_zero _),
      fun q _ => rfl⟩
  | succ n ih =>
    obtain ⟨h1, h2, h3⟩ := ih
    obtain ⟨c1, c2, c3⟩ := rotate90Column_spec sp xres yres c n
      (rotate90Columns sp xres yres c n s) yres
    have hsucc : (n + 1) * (yres * c) = n * (yres * c) + yres * c := by ring
    refine ⟨?_, ?_, ?_⟩
    · show (rotate90Column sp xres yres c n yres (rotate90Columns sp xres yres c n s)).2 = _
      rw [c1, h1, hsucc]
      omega
    · intro x k z hx hk hz
      show (rotate90Column sp xres yres c n yres (rotate90Columns sp xres yres c n s)).1 _ = _
      have hkz := idx_lt k yres c z hk hz
      by_cases hxn : x = n
      · subst hxn
        rw [← h1]
        exact c2 k z hk hz
      · have hlt := idx_lt x n (yres * c) (k * c + z) (by omega) hkz
        rw [c3 _ (Or.inl (by rw [h1]; omega))]
        exact h2 x k z (by omega) hk hz
    · intro q hq
      show (rotate90Column sp xres yres c n yres (rotate90Columns sp xres yres c n s)).1 q = _
      rw [c3 q (by rw [h1]; omega)]
      exact h3 q (by omega)

/-- The closed form of `rotate90`: the output pixel at row `r`, column `k` (width `yres`) is
the source pixel at row `yres - 1 - k`, column `r` (width `xres`); bytes beyond the bitmap
are not written; `xres * yres * c` bytes are written in all. -/
theorem rotate90_closed (dp sp : Mem) (xres yres c : Nat) :
    (∀ r k z, r < xres → k < yres → z < c →
      rotate90 dp sp xres yres c ((r * yres + k) * c + z)
        = sp (((yres - 1 - k) * xres + r) * c + z)) ∧
    (∀ q, xres * yres * c ≤ q → rotate90 dp sp xres yres c q = dp q) ∧
    (rotate90Columns sp xres yres c xres (dp, 0)).2 = xres * yres * c := by
  obtain ⟨h1, h2, h3⟩ := rotate90Columns_spec sp xres yres c (dp, 0) xres
  refine ⟨?_, ?_, ?_⟩
  · intro r k z hr hk hz
    have e1 : (r * yres + k) * c + z = 0 + r * (yres * c) + k * c + z := by ring
    have e2 : ((yres - 1 - k) * xres + r) * c + z = (r + (yres - 1 - k) * xres) * c + z := by
      ring
    unfold rotate90
    rw [e1, e2]
    exact h2 r k z hr hk hz
  · intro q hq
    unfold rotate90
    exact h3 q (Or.inr (by
      have : xres * yres * c = xres * (yres * c) := by ring
      show 0 + xres * (yres * c) ≤ q
      omega))
  · rw [h1]
    show 0 + xres * (yres * c) = xres * yres * c
    ring

/-- One output row of `rotate270`: `n` pixels. -/
theorem rotate270Row_spec (sp : Mem) (xres yres c y : Nat) (dp : Mem) :
    ∀ n,
      (∀ k z, k < n → z < c →
        rotate270Row sp xres yres c y n dp (y * (yres * c) + k * c + z)
          = sp ((k * xres + (xres - 1 - y)) * c + z)) ∧
      (∀ q, q < y * (yres * c) ∨ y * (yres * c) + n * c ≤ q →
        rotate270Row sp xres yres c y n dp q = dp q) := by
  intro n
  induction n with
  | zero => exact ⟨fun k z hk _ => absurd hk (Nat.not_lt_zero _), fun q _ => rfl⟩
  | succ n ih =>
    obtain ⟨h2, h3⟩ := ih
    have hd : n * c + y * yres * c = y * (yres * c) + n * c := by ring
    have hsucc : (n + 1) * c = n * c + c := by ring
    have step : ∀ q, rotate270Row sp xres yres c y (n + 1) dp q
        = if y * (yres * c) + n * c ≤ q ∧ q < y * (yres * c) + n * c + c then
            sp ((xres - 1 - y) * c + n * c * xres + (q - (y * (yres * c) + n * c)))
          else rotate270Row sp xres yres c y n dp q := by
      intro q
      show memcpy _ _ _ _ _ q = _
      unfold memcpy
      rw [hd]
    constructor
    · intro k z hk hz
      rw [step]
      by_cases hkn : k = n
      · subst hkn
        rw [if_pos (by omega)]
        congr 1
        have : y * (yres * c) + k * c + z - (y * (yres * c) + k * c) = z := by omega
        rw [this]
        ring
      · have hlt := idx_lt k n c z (by omega) hz
        rw [if_neg (by omega)]
        exact h2 k z (by omega) hz
    · intro q hq
      rw [step, if_neg (by omega)]
      exact h3 q (by omega)

/-- The rows of `rotate270`: `n` output rows of `yres` pixels each. -/
theorem rotate270Rows_spec (sp : Mem) (xres yres c : Nat) (dp : Mem) :
    ∀ n,
      (∀ y k z, y < n → k < yres → z < c →
        rotate270Rows sp xres yres c n dp (y * (yres * c) + k * c + z)
          = sp ((k * xres + (xres - 1 - y)) * c + z)) ∧
      (∀ q, n * (yres * c) ≤ q → rotate270Rows sp xres yres c n dp q = dp q) := by
  intro n
  induction n with
  | zero => exact ⟨fun y k z hy _ _ => absurd hy (Nat.not_lt_zero _), fun q _ => rfl⟩
  | succ n ih =>
    obtain ⟨h2, h3⟩ := ih
    obtain ⟨r2, r3⟩ := rotate270Row_spec sp xres yres c n
      (rotate270Rows sp xres yres c n dp) yres
    have hsucc : (n + 1) * (yres * c) = n * (yres * c) + yres * c := by ring
    constructor
    · intro y k z hy hk hz
      show rotate270Row sp xres yres c n yres (rotate270Rows sp xres yres c n dp) _ = _
      have hkz := idx_lt k yres c z hk hz
      by_cases hyn : y = n
      · subst hyn
        exact r2 k z hk hz
      · have hlt := idx_lt y n (yres * c) (k * c + z) (by omega) hkz
        rw [r3 _ (Or.inl (by omega))]
        exact h2 y k z (by omega) hk hz
    · intro q hq
      show rotate270Row sp xres yres c n yres (rotate270Rows sp xres yres c n dp) q = _
      rw [r3 q (Or.inr (by omega))]
      exact h3 q (by omega)

/-- The closed form of `rotate270`: the output pixel at row `y`, column `k` (width `yres`) is
the source pixel at row `k`, column `xres - 1 - y` (width `xres`); bytes beyond the bitmap are
not written. -/
theorem rotate270_closed (dp sp : Mem) (xres yres c : Nat) :
    (∀ y k z, y < xres → k < yres → z < c →
      rotate270 dp sp xres yres c ((y * yres + k) * c + z)
        = sp ((k * xres + (xres - 1 - y)) * c + z)) ∧
    (∀ q, xres * yres * c ≤ q → rotate270 dp sp xres yres c q = dp q) := by
  obtain ⟨h2, h3⟩ := rotate270Rows_spec sp xres yres c dp xres
  constructor
  · intro y k z hy hk hz
    have e1 : (y * yres + k) * c + z = y * (yres * c) + k * c + z := by ring
    unfold rotate270
    rw [e1]
    exact h2 y k z hy hk hz
  · intro q hq
    unfold rotate270
    exact h3 q (by
      have : xres * yres * c = xres * (yres * c) := by ring
      omega)

/-- Every byte offset inside a bitmap of `w` by `h` pixels of `c` bytes is byte `z` of the
pixel at some row `r` and column `k`. -/
theorem pixel_of_offset (q w h c : Nat) (hq : q < w * h * c) :
    ∃ r k z, r < h ∧ k < w ∧ z < c ∧ q = (r * w + k) * c + z := by
  have hc : 0 < c := by
    rcases Nat.eq_zero_or_pos c with h0 | h0
    · subst h0
      simp at hq
    · exact h0
  have hw : 0 < w := by
    rcases Nat.eq_zero_or_pos w with h0 | h0
    · subst h0
      simp at hq
    · exact h0
  have hp : q / c < w * h := (Nat.div_lt_iff_lt_mul hc).mpr hq
  have hr : q / c / w < h := (Nat.div_lt_iff_lt_mul hw).mpr (by rw [Nat.mul_comm]; exact hp)
  refine ⟨q / c / w, q / c % w, q % c, hr, Nat.mod_lt _ hw, Nat.mod_lt _ hc, ?_⟩
  have e1 : q / c / w * w + q / c % w = q / c := by
    rw [Nat.mul_comm]
    exact Nat.div_add_mod _ _
  rw [e1, Nat.mul_comm]
  exact (Nat.div_add_mod _ _).symm

/-- Two applications of `rotate90` turn the bitmap by 180 degrees. -/
theorem rotate90_twice (b d1 d2 : Mem) (w h c r k z : Nat) (hr : r < h) (hk : k < w)
    (hz : z < c) :
    rotate90 d2 (rotate90 d1 b w h c) h w c ((r * w + k) * c + z)
      = b (((h - 1 - r) * w + (w - 1 - k)) * c + z) := by
  rw [(rotate90_closed d2 (rotate90 d1 b w h c) h w c).1 r k z hr hk hz]
  exact (rotate90_closed d1 b w h c).1 (w - 1 - k) r z (by omega) hr hz

/-- C17: `rotate90` is a full clockwise quarter turn.  For all `xres`, `yres`, `c` the output,
read as a bitmap of width `yres` and height `xres`, holds at row `r`, column `k` all `c` bytes
of the source pixel at row `yres - 1 - k`, column `r`; every source pixel is the image of
exactly one output pixel; `xres * yres * c` bytes are written and no byte beyond them. -/
theorem rotate90_quarter_turn (dp sp : Mem) (xres yres c : Nat) :
    (∀ r k z, r < xres → k < yres → z < c →
      rotate90 dp sp xres yres c ((r * yres + k) * c + z)
        = sp (((yres - 1 - k) * xres + r) * c + z)) ∧
    (∀ y x, y < yres → x < xres →
      ∃! rk : Nat × Nat, rk.1 < xres ∧ rk.2 < yres ∧ yres - 1 - rk.2 = y ∧ rk.1 = x) ∧
    (rotate90Columns sp xres yres c xres (dp, 0)).2 = xres * yres * c ∧
    (∀ q, xres * yres * c ≤ q → rotate90 dp sp xres yres c q = dp q) := by
  obtain ⟨h1, h2, h3⟩ := rotate90_closed dp sp xres yres c
  refine ⟨h1, ?_, h3, h2⟩
  intro y x hy hx
  refine ⟨(x, yres - 1 - y), ⟨hx, by omega, by omega, rfl⟩, ?_⟩
  rintro ⟨a, b⟩ ⟨_, hb, hy2, hx2⟩
  simp only at hb hy2 hx2
  simp only [Prod.mk.injEq]
  omega

/-- C17 at a concrete input: a 3x2 bitmap of 2-byte pixels whose byte at offset `p` is
`p + 1`; the output pixel at row 2, column 0 is the source pixel at row 1, column 2. -/
theorem rotate90_quarter_turn_witness :
    rotate90 (fun _ => 0) (fun p => p + 1) 3 2 2 ((2 * 2 + 0) * 2 + 1)
      = (fun p => p + 1) (((2 - 1 - 0) * 3 + 2) * 2 + 1) :=
  (rotate90_quarter_turn (fun _ => 0) (fun p => p + 1) 3 2 2).1 2 0 1
    (by decide) (by decide) (by decide)

/-- C18: `rotate270` for all `xres`, `yres`, `c`: the output, read as a bitmap of width `yres`
and height `xres`, holds at row `y`, column `k` all `c` bytes of the source pixel at column
`xres - 1 - y`, row `k`; no byte beyond the bitmap is written. -/
theorem rotate270_three_quarter_turn (dp sp : Mem) (xres yres c : Nat) :
    (∀ y k z, y < xres → k < yres → z < c →
      rotate270 dp sp xres yres c ((y * yres + k) * c + z)
        = sp ((k * xres + (xres - 1 - y)) * c + z)) ∧
    (∀ q, xres * yres * c ≤ q → rotate270 dp sp xres yres c q = dp q) :=
  rotate270_closed dp sp xres yres c

/-- C18 at a concrete input: a 3x2 bitmap of 2-byte pixels whose byte at offset `p` is
`p + 1`; the output pixel at row 0, column 1 is the source pixel at row 1, column 2. -/
theorem rotate270_three_quarter_turn_witness :
    rotate270 (fun _ => 0) (fun p => p + 1) 3 2 2 ((0 * 2 + 1) * 2 + 1)
      = (fun p => p + 1) ((1 * 3 + (3 - 1 - 0)) * 2 + 1) :=
  (rotate270_three_quarter_turn (fun _ => 0) (fun p => p + 1) 3 2 2).1 0 1 1
    (by decide) (by decide) (by decide)

/-- C12: the rotation round trip.  For every bitmap of `w` by `h` pixels of `c` bytes (in
particular even `w`, `h` and `c` 2 or 4), four applications of `rotate90`, with `xres` and
`yres` swapped on each call and whatever the destination buffers hold, reproduce every byte
of the bitmap; so do two applications of the 180 degree case of the rotation dispatch
(`rotate90` twice). -/
theorem rotate90_round_trip (b d1 d2 d3 d4 workbuf1 workbuf2 : Mem) (w h c q : Nat)
    (hq : q < w * h * c) :
    rotate90 d4 (rotate90 d3 (rotate90 d2 (rotate90 d1 b w h c) h w c) w h c) h w c q = b q ∧
    rotateBitmap 2 (rotateBitmap 2 b workbuf1 w h c) workbuf2 w h c q = b q := by
  obtain ⟨r, k, z, hr, hk, hz, rfl⟩ := pixel_of_offset q w h c hq
  have four : ∀ e1 e2 e3 e4 : Mem,
      rotate90 e4 (rotate90 e3 (rotate90 e2 (rotate90 e1 b w h c) h w c) w h c) h w c
          ((r * w + k) * c + z)
        = b ((r * w + k) * c + z) := by
    intro e1 e2 e3 e4
    rw [rotate90_twice _ e3 e4 w h c r k z hr hk hz,
      rotate90_twice b e1 e2 w h c (h - 1 - r) (w - 1 - k) z (by omega) (by omega) hz]
    have hr2 : h - 1 - (h - 1 - r) = r := by omega
    have hk2 : w - 1 - (w - 1 - k) = k := by omega
    rw [hr2, hk2]
  exact ⟨four d1 d2 d3 d4, four workbuf1 b workbuf2 _⟩

/-- C12 at a concrete input: a 2x2 bitmap of 2-byte pixels whose byte at offset `p` is
`p + 1`, byte 5. -/
theorem rotate90_round_trip_witness :
    rotate90 (fun _ => 0) (rotate90 (fun _ => 0) (rotate90 (fun _ => 0)
        (rotate90 (fun _ => 0) (fun p => p + 1) 2 2 2) 2 2 2) 2 2 2) 2 2 2 5
      = (fun p => p + 1) 5 ∧
    rotateBitmap 2 (rotateBitmap 2 (fun p => p + 1) (fun _ => 0) 2 2 2) (fun _ => 0) 2 2 2 5
      = (fun p => p + 1) 5 :=
  rotate90_round_trip (fun p => p + 1) (fun _ => 0) (fun _ => 0) (fun _ => 0) (fun _ => 0)
    (fun _ => 0) (fun _ => 0) 2 2 2 5 (by decide)

/-! ## Facts about the decode loop and the program -/

set_option maxRecDepth 100000 in
/-- The two FIT scenarios of the specification on a 320x240 framebuffer of 4-byte pixels: the
200x100 source (scale 1, bitmap 200x100) ends the decode loop with 99 rows, the 800x600 source
(scale 2.5, bitmap 320x240) with 239 rows. -/
theorem decode_rows_in_scenarios :
    (decode 4 ⟨⟨1, 1⟩, 200, 100, 60, 70, 0, 0, 0, 0⟩ 3 100 (fun _ _ => 255) (fun _ => 0)).sz
      = 4 * 200 * 99 ∧
    (decode 4 ⟨⟨600, 240⟩, 320, 240, 0, 0, 0, 0, 0, 0⟩ 3 600 (fun _ _ => 255) (fun _ => 0)).sz
      = 4 * 320 * 239 := by
  decide

/-- C13 fails on the code: the decode loop emits one row less than `bitmap_height`.  A 1x3
source on a 2x3 framebuffer of 4-byte pixels gets a 1x3 bitmap at scale 1; the loop accepts
the scanlines with `output_scanline - start_scanline < bitmap_height * scale`, that is
`output_scanline` 1 and 2, and ends with `sz = 8`, not `4 * 1 * 3 = 12`; the bytes 8..11 of the
bitmap keep what the uninitialised buffer held, whatever that is.  On a 320x240 framebuffer
the 200x100 source ends with 99 of 100 rows and the 800x600 source with 239 of 240. -/
theorem decode_emits_one_row_less :
    planGeometry 0 0 0 0 1 3 2 3 = some ⟨⟨3, 3⟩, 1, 3, 0, 0, 0, 0, 0, 0⟩ ∧
    (decode 4 ⟨⟨3, 3⟩, 1, 3, 0, 0, 0, 0, 0, 0⟩ 3 3 (fun _ _ => 255) (fun _ => 0)).sz = 8 ∧
    4 * 1 * 3 = 12 ∧
    (∀ buffer : Mem,
      (decode 4 ⟨⟨3, 3⟩, 1, 3, 0, 0, 0, 0, 0, 0⟩ 3 3 (fun _ _ => 255) buffer).bp 7 = 255 ∧
      (decode 4 ⟨⟨3, 3⟩, 1, 3, 0, 0, 0, 0, 0, 0⟩ 3 3 (fun _ _ => 255) buffer).bp 8
        = buffer 8 ∧
      (decode 4 ⟨⟨3, 3⟩, 1, 3, 0, 0, 0, 0, 0, 0⟩ 3 3 (fun _ _ => 255) buffer).bp 11
        = buffer 11) ∧
    planGeometry 0 0 0 0 200 100 320 240 = some ⟨⟨1, 1⟩, 200, 100, 60, 70, 0, 0, 0, 0⟩ ∧
    (decode 4 ⟨⟨1, 1⟩, 200, 100, 60, 70, 0, 0, 0, 0⟩ 3 100 (fun _ _ => 255) (fun _ => 0)).sz
      = 4 * 200 * 99 ∧
    planGeometry 0 0 0 0 800 600 320 240 = some ⟨⟨600, 240⟩, 320, 240, 0, 0, 0, 0, 0, 0⟩ ∧
    (decode 4 ⟨⟨600, 240⟩, 320, 240, 0, 0, 0, 0, 0, 0⟩ 3 600 (fun _ _ => 255) (fun _ => 0)).sz
      = 4 * 320 * 239 :=
  ⟨by decide, by decide, by decide, fun _ => ⟨rfl, rfl, rfl⟩, by decide,
    decode_rows_in_scenarios.1, by decide, decode_rows_in_scenarios.2⟩

/-- The exit status: 1 for an unknown rotation; for a plan `g`, 0 when the stores of the
compositing lie inside the mapped framebuffer, and none otherwise. -/
theorem jfbv_status (rotate scaling xpan ypan clr : Int) (fb_maxx fb_maxy fb_bits : Nat)
    (image_width image_height c : Nat) (image : Nat → Mem) (buffer workbuf fbm : Mem) :
    (planGeometry rotate scaling xpan ypan image_width image_height fb_maxx fb_maxy = none →
      (jfbv rotate scaling xpan ypan clr fb_maxx fb_maxy fb_bits image_width image_height c
        image buffer workbuf fbm).status = some 1) ∧
    (∀ g, planGeometry rotate scaling xpan ypan image_width image_height fb_maxx fb_maxy
        = some g →
      (jfbv rotate scaling xpan ypan clr fb_maxx fb_maxy fb_bits image_width image_height c
          image buffer workbuf fbm).status
        = if compositeInMap clr (fbBytes fb_bits) fb_maxx fb_maxy g.ox g.oy
            (finalDims rotate g.bitmap_width g.bitmap_height).1
            (finalDims rotate g.bitmap_width g.bitmap_height).2 then some 0 else none) := by
  constructor
  · intro h
    unfold jfbv
    rw [h]
  · intro g h
    unfold jfbv
    rw [h]

/-- A known rotation has a plan. -/
theorem planGeometry_some (rotate scaling xpan ypan : Int)
    (image_width image_height fb_maxx fb_maxy : Nat)
    (hrot : rotate = 0 ∨ rotate = 1 ∨ rotate = 2 ∨ rotate = 3) :
    ∃ g, planGeometry rotate scaling xpan ypan image_width image_height fb_maxx fb_maxy
      = some g := by
  rcases hrot with r | r | r | r <;> subst r <;> exact ⟨_, rfl⟩

/-- With a pixel storage size other than 4 and 2 the decode loop converts nothing. -/
theorem decodeLoop_no_conversion (fb_bytes bitmap_width bitmap_height : Nat) (scale : Scale)
    (scanline_offset start_scanline c image_height : Nat) (image : Nat → Mem)
    (h4 : fb_bytes ≠ 4) (h2 : fb_bytes ≠ 2) :
    ∀ fuel k st,
      (decodeLoop fb_bytes bitmap_width bitmap_height scale scanline_offset start_scanline c
        image_height image fuel k st).bp = st.bp := by
  intro fuel
  induction fuel with
  | zero => intro k st; rfl
  | succ fuel ih =>
    intro k st
    unfold decodeLoop
    split_ifs with hcond
    · rw [ih]
      unfold decodeStep
      split_ifs <;> rfl
    · rfl

/-- A run without exit status: an 800x1 source mixed with alpha 128 onto an 800x600
framebuffer of 32 bits.  The bitmap has height 1, the `unsigned int` bound
`fb_bitmap_height - 2` of the alpha loop wraps, and in iteration `i = 301` the store goes to
byte offset 1920000, the length of the mapping. -/
theorem alpha_mix_of_short_bitmap_leaves_map (image : Nat → Mem) (buffer workbuf fbm : Mem) :
    planGeometry 0 0 0 0 800 1 800 600 = some ⟨⟨800, 800⟩, 800, 1, 0, 299, 0, 0, 0, 0⟩ ∧
    mapLength 800 600 4 = 1920000 ∧
    u32 (4 * u32 (u32 (u32 (800 * u32 (301 + 299)) + 0) + 0)) = 1920000 ∧
    (jfbv 0 0 0 0 128 800 600 32 800 1 3 image buffer workbuf fbm).status = none := by
  have hg : planGeometry 0 0 0 0 800 1 800 600
      = some ⟨⟨800, 800⟩, 800, 1, 0, 299, 0, 0, 0, 0⟩ := by decide
  have hout : compositeInMap 128 4 800 600 0 299 800 1 = false := by
    unfold compositeInMap
    rw [if_neg (by decide), if_pos (by decide), decide_eq_false_iff_not]
    intro h
    have h1 := h 301 (by decide) 0 (by decide)
    have h2 : u32 (4 * u32 (u32 (u32 (800 * u32 (301 + 299)) + 0) + 0)) = 1920000 := by decide
    have h3 : mapLength 800 600 4 = 1920000 := by decide
    rw [h2, h3] at h1
    omega
  refine ⟨hg, by decide, by decide, ?_⟩
  rw [(jfbv_status 0 0 0 0 128 800 600 32 800 1 3 image buffer workbuf fbm).2 _ hg]
  show (if compositeInMap 128 4 800 600 0 299 800 1 = true then some 0 else none) = none
  rw [hout]
  rfl

/-- C14, as the code behaves: no surface bit depth is rejected.  Depth 24 is given the pixel
storage size 4 of depth 32, and the run on a 24 bit surface is the run on a 32 bit surface;
every depth other than 16, 24 and 32 is given the size 1, for which the conversion switch has
no case, so that the decode loop converts no pixel into the bitmap; and whatever the depth, a
run with a plan (a known rotation) whose compositing stores lie inside the mapped framebuffer
reaches `exit(0)`. -/
theorem no_depth_is_rejected (rotate scaling xpan ypan clr : Int)
    (fb_maxx fb_maxy fb_bits : Nat) (image_width image_height c : Nat) (image : Nat → Mem)
    (buffer workbuf fbm : Mem) (g : Geometry)
    (hplan : planGeometry rotate scaling xpan ypan image_width image_height fb_maxx fb_maxy
      = some g)
    (hmap : compositeInMap clr (fbBytes fb_bits) fb_maxx fb_maxy g.ox g.oy
      (finalDims rotate g.bitmap_width g.bitmap_height).1
      (finalDims rotate g.bitmap_width g.bitmap_height).2 = true) :
    (jfbv rotate scaling xpan ypan clr fb_maxx fb_maxy fb_bits image_width image_height c
        image buffer workbuf fbm).status = some 0 ∧
    fbBytes 24 = fbBytes 32 ∧
    jfbv rotate scaling xpan ypan clr fb_maxx fb_maxy 24 image_width image_height c
        image buffer workbuf fbm
      = jfbv rotate scaling xpan ypan clr fb_maxx fb_maxy 32 image_width image_height c
        image buffer workbuf fbm ∧
    (fb_bits ≠ 16 → fb_bits ≠ 24 → fb_bits ≠ 32 →
      fbBytes fb_bits = 1 ∧
      ∀ g1 : Geometry,
        (decode (fbBytes fb_bits) g1 c image_height image buffer).bp = buffer) := by
  refine ⟨?_, rfl, rfl, ?_⟩
  · rw [(jfbv_status rotate scaling xpan ypan clr fb_maxx fb_maxy fb_bits image_width
      image_height c image buffer workbuf fbm).2 g hplan, hmap]
    rfl
  · intro h16 h24 h32
    have h1 : fbBytes fb_bits = 1 := by
      unfold fbBytes
      rw [if_neg (by omega), if_neg h16]
    refine ⟨h1, fun g1 => ?_⟩
    rw [h1]
    unfold decode
    rw [decodeLoop_no_conversion 1 _ _ _ _ _ _ _ _ (by decide) (by decide)]

/-- C14 at a concrete input: a 1x3 source on a 2x3 framebuffer of 8 bits, row copy. -/
theorem no_depth_is_rejected_witness :
    (jfbv 0 0 0 0 1 2 3 8 1 3 3 (fun _ _ => 255) (fun _ => 0) (fun _ => 0) (fun _ => 0)).status
      = some 0 ∧
    fbBytes 24 = fbBytes 32 ∧
    jfbv 0 0 0 0 1 2 3 24 1 3 3 (fun _ _ => 255) (fun _ => 0) (fun _ => 0) (fun _ => 0)
      = jfbv 0 0 0 0 1 2 3 32 1 3 3 (fun _ _ => 255) (fun _ => 0) (fun _ => 0) (fun _ => 0) ∧
    ((8 : Nat) ≠ 16 → (8 : Nat) ≠ 24 → (8 : Nat) ≠ 32 →
      fbBytes 8 = 1 ∧
      ∀ g1 : Geometry, (decode (fbBytes 8) g1 3 3 (fun _ _ => 255) (fun _ => 0)).bp
        = (fun _ => 0)) :=
  no_depth_is_rejected 0 0 0 0 1 2 3 8 1 3 3 (fun _ _ => 255) (fun _ => 0) (fun _ => 0)
    (fun _ => 0) ⟨⟨3, 3⟩, 1, 3, 0, 0, 0, 0, 0, 0⟩ (by decide) (by decide)

/-- C14 fails as stated: on a 24 bit framebuffer (a depth other than 16 and 32) a white 1x3
source is converted and copied to the black 2x3 target, whose first pixel becomes
`ff ff ff ff`, and the exit status is 0; on an 8 bit framebuffer the exit status is 0 as
well. -/
theorem depth_24_and_8_exit_zero :
    (jfbv 0 0 0 0 1 2 3 24 1 3 3 (fun _ _ => 255) (fun _ => 0) (fun _ => 0) (fun _ => 0)).status
      = some 0 ∧
    rd32 (jfbv 0 0 0 0 1 2 3 24 1 3 3 (fun _ _ => 255) (fun _ => 0) (fun _ => 0)
      (fun _ => 0)).fbm 0 = 0xffffffff ∧
    (jfbv 0 0 0 0 1 2 3 8 1 3 3 (fun _ _ => 255) (fun _ => 0) (fun _ => 0) (fun _ => 0)).status
      = some 0 := by
  decide

/-- C15, as the code behaves: a mix argument outside 0..255 is not rejected.  With a known
rotation the program writes nothing to the framebuffer and runs to `exit(0)`; and for every
`clr` outside 2..255 the compositing is the row copy (`clr` 0 or 1) or nothing, so that alpha
blending is performed only with an alpha in 2..255. -/
theorem mix_out_of_range_draws_nothing (rotate scaling xpan ypan clr : Int)
    (fb_maxx fb_maxy fb_bits : Nat) (image_width image_height c : Nat) (image : Nat → Mem)
    (buffer workbuf fbm : Mem) (hrot : rotate = 0 ∨ rotate = 1 ∨ rotate = 2 ∨ rotate = 3)
    (hclr : clr < 0 ∨ 255 < clr) :
    (jfbv rotate scaling xpan ypan clr fb_maxx fb_maxy fb_bits image_width image_height c
        image buffer workbuf fbm).status = some 0 ∧
    (jfbv rotate scaling xpan ypan clr fb_maxx fb_maxy fb_bits image_width image_height c
        image buffer workbuf fbm).fbm = fbm ∧
    (∀ (a : Int) (fb_bytes ox oy w h : Nat) (bp m : Mem), ¬ (2 ≤ a ∧ a ≤ 255) →
      composite a fb_bytes fb_maxx fb_maxy ox oy w h bp m
        = if a = 0 then
            copyRows fb_bytes fb_maxx ox oy w bp h
              (memset m 0 (u32 (u32 (fb_maxx * fb_maxy) * fb_bytes)))
          else if a = 1 then copyRows fb_bytes fb_maxx ox oy w bp h m
          else m) := by
  have hcomp : ∀ (fb_bytes ox oy w h : Nat) (bp m : Mem),
      composite clr fb_bytes fb_maxx fb_maxy ox oy w h bp m = m := by
    intro fb_bytes ox oy w h bp m
    unfold composite
    rw [if_neg (by omega), if_neg (by omega), if_neg (by omega)]
  have hmap : ∀ (fb_bytes ox oy w h : Nat),
      compositeInMap clr fb_bytes fb_maxx fb_maxy ox oy w h = true := by
    intro fb_bytes ox oy w h
    unfold compositeInMap
    rw [if_neg (by omega), if_neg (by omega)]
  obtain ⟨g, hg⟩ := planGeometry_some rotate scaling xpan ypan image_width image_height
    fb_maxx fb_maxy hrot
  refine ⟨?_, ?_, ?_⟩
  · rw [(jfbv_status rotate scaling xpan ypan clr fb_maxx fb_maxy fb_bits image_width
      image_height c image buffer workbuf fbm).2 g hg, hmap]
    rfl
  · unfold jfbv
    rw [hg]
    exact hcomp _ _ _ _ _ _ _
  · intro a fb_bytes ox oy w h bp m ha
    unfold composite
    by_cases h0 : a = 0
    · subst h0
      simp
    · by_cases h1 : a = 1
      · subst h1
        simp
      · rw [if_neg h0, if_neg (by omega), if_neg ha, if_neg h0, if_neg h1]

/-- C15 at a concrete input: the mix argument 256. -/
theorem mix_out_of_range_draws_nothing_witness :
    (jfbv 0 0 0 0 256 2 3 32 1 3 3 (fun _ _ => 255) (fun _ => 0) (fun _ => 0)
        (fun _ => 7)).status = some 0 ∧
    (jfbv 0 0 0 0 256 2 3 32 1 3 3 (fun _ _ => 255) (fun _ => 0) (fun _ => 0) (fun _ => 7)).fbm
      = (fun _ => 7) ∧
    (∀ (a : Int) (fb_bytes ox oy w h : Nat) (bp m : Mem), ¬ (2 ≤ a ∧ a ≤ 255) →
      composite a fb_bytes 2 3 ox oy w h bp m
        = if a = 0 then
            copyRows fb_bytes 2 ox oy w bp h (memset m 0 (u32 (u32 (2 * 3) * fb_bytes)))
          else if a = 1 then copyRows fb_bytes 2 ox oy w bp h m
          else m) :=
  mix_out_of_range_draws_nothing 0 0 0 0 256 2 3 32 1 3 3 (fun _ _ => 255) (fun _ => 0)
    (fun _ => 0) (fun _ => 7) (by decide) (by decide)

/-- C15 fails as stated: with the mix arguments 256 and -1 the exit status is 0, not 1. -/
theorem mix_256_exits_zero :
    (jfbv 0 0 0 0 256 2 3 32 1 3 3 (fun _ _ => 255) (fun _ => 0) (fun _ => 0)
        (fun _ => 7)).status = some 0 ∧
    (jfbv 0 0 0 0 (-1) 2 3 32 1 3 3 (fun _ _ => 255) (fun _ => 0) (fun _ => 0)
        (fun _ => 7)).status = some 0 := by
  decide

/-- The decode loop ends within `image_height - k` iterations: more iterations change
nothing. -/
theorem decodeLoop_ends (fb_bytes bitmap_width bitmap_height : Nat) (scale : Scale)
    (scanline_offset start_scanline c image_height : Nat) (image : Nat → Mem) :
    ∀ fuel k st extra, image_height ≤ k + fuel →
      decodeLoop fb_bytes bitmap_width bitmap_height scale scanline_offset start_scanline c
          image_height image (fuel + extra) k st
        = decodeLoop fb_bytes bitmap_width bitmap_height scale scanline_offset start_scanline c
          image_height image fuel k st := by
  intro fuel
  induction fuel with
  | zero =>
    intro k st extra hk
    cases extra with
    | zero => rfl
    | succ e =>
      rw [Nat.zero_add]
      show decodeLoop fb_bytes bitmap_width bitmap_height scale scanline_offset
        start_scanline c image_height image (e + 1) k st = st
      unfold decodeLoop
      rw [if_neg (by omega)]
  | succ fuel ih =>
    intro k st extra hk
    have hadd : fuel + 1 + extra = (fuel + extra) + 1 := by omega
    rw [hadd]
    unfold decodeLoop
    split_ifs with hcond
    · exact ih (k + 1) _ extra (by omega)
    · rfl

/-! ## Further facts about `alphamix` and the rotations -/

/-- C21: `alphamix` blends the packed channels independently, without carry or 32 bit
overflow.  For all `bg`, `src` (in particular 32 bit ones) and every `a` in 0..255: the two sums of products stay
below `2^32`; the top byte of the result is the top byte of `src`; each colour byte is
`(s * a + d * (255 - a)) / 256`, where `s` and `d` are the same byte of `src` and `bg`; hence
each colour byte is at most `max s d`; and the result is a 32 bit value. -/
theorem alphamix_channels_independent (bg src a : Nat) (ha : a ≤ 255) :
    (src &&& 0x00ff00ff) * a + (bg &&& 0x00ff00ff) * (0xff - a) < 4294967296 ∧
    (src &&& 0x0000ff00) * a + (bg &&& 0x0000ff00) * (0xff - a) < 4294967296 ∧
    channel (alphamix bg src a) 3 = channel src 3 ∧
    (∀ k, k < 3 →
      channel (alphamix bg src a) k = (channel src k * a + channel bg k * (255 - a)) / 256 ∧
      channel (alphamix bg src a) k ≤ max (channel src k) (channel bg k)) ∧
    alphamix bg src a < 4294967296 := by
  obtain ⟨h0, h1, h2, h3⟩ := alphamix_channels bg src a ha
  have bound : ∀ s d : Nat, s * a + d * (255 - a) ≤ 255 * max s d := by
    intro s d
    have hs : s * a ≤ max s d * a := Nat.mul_le_mul_right _ (le_max_left s d)
    have hd : d * (255 - a) ≤ max s d * (255 - a) := Nat.mul_le_mul_right _ (le_max_right s d)
    have hsum : max s d * a + max s d * (255 - a) = 255 * max s d := by
      rw [← Nat.mul_add, Nat.mul_comm]
      congr 1
      omega
    omega
  have hle : ∀ s d : Nat, (s * a + d * (255 - a)) / 256 ≤ max s d := by
    intro s d
    have := bound s d
    omega
  have sum_lt : ∀ m : Nat, m ≤ 16777215 →
      (src &&& m) * a + (bg &&& m) * (0xff - a) < 4294967296 := by
    intro m hm
    have hs : src &&& m ≤ 16777215 := Nat.le_trans Nat.and_le_right hm
    have hb : bg &&& m ≤ 16777215 := Nat.le_trans Nat.and_le_right hm
    have h1 : (src &&& m) * a ≤ 16777215 * a := Nat.mul_le_mul_right _ hs
    have h2 : (bg &&& m) * (0xff - a) ≤ 16777215 * (0xff - a) := Nat.mul_le_mul_right _ hb
    omega
  refine ⟨sum_lt _ (by decide), sum_lt _ (by decide), h3, ?_, ?_⟩
  · intro k hk
    have hk3 : k = 0 ∨ k = 1 ∨ k = 2 := by omega
    rcases hk3 with h | h | h <;> subst h
    · exact ⟨h0, by rw [h0]; exact hle _ _⟩
    · exact ⟨h1, by rw [h1]; exact hle _ _⟩
    · exact ⟨h2, by rw [h2]; exact hle _ _⟩
  · unfold alphamix
    apply Nat.or_lt_two_pow (n := 32)
    · exact Nat.lt_of_le_of_lt Nat.and_le_right (by decide)
    · rw [Nat.shiftRight_eq_div_pow]
      have hrb : ∀ x y : Nat, x &&& 0xff00ff00 ||| y &&& 0x00ff0000 < 2 ^ 32 := fun x y =>
        Nat.or_lt_two_pow (Nat.lt_of_le_of_lt Nat.and_le_right (by decide))
          (Nat.lt_of_le_of_lt Nat.and_le_right (by decide))
      have := hrb (u32 (u32 ((src &&& 0x00ff00ff) * a) + u32 ((bg &&& 0x00ff00ff) * usub 0xff a)))
        (u32 (u32 ((src &&& 0x0000ff00) * a) + u32 ((bg &&& 0x0000ff00) * usub 0xff a)))
      exact Nat.lt_of_le_of_lt (Nat.div_le_self _ _) this

/-- C21 at a concrete input: alpha 200, source `0x80c0ffee` over background `0x11223344`. -/
theorem alphamix_channels_independent_witness :
    alphamix 0x11223344 0x80c0ffee 200 = 0x809dd2c8 ∧
    ((0x80c0ffee &&& 0x00ff00ff) * 200 + (0x11223344 &&& 0x00ff00ff) * (0xff - 200)
        < 4294967296 ∧
      (0x80c0ffee &&& 0x0000ff00) * 200 + (0x11223344 &&& 0x0000ff00) * (0xff - 200)
        < 4294967296 ∧
      channel (alphamix 0x11223344 0x80c0ffee 200) 3 = channel 0x80c0ffee 3 ∧
      (∀ k, k < 3 →
        channel (alphamix 0x11223344 0x80c0ffee 200) k
          = (channel 0x80c0ffee k * 200 + channel 0x11223344 k * (255 - 200)) / 256 ∧
        channel (alphamix 0x11223344 0x80c0ffee 200) k
          ≤ max (channel 0x80c0ffee k) (channel 0x11223344 k)) ∧
      alphamix 0x11223344 0x80c0ffee 200 < 4294967296) :=
  ⟨by decide, alphamix_channels_independent 0x11223344 0x80c0ffee 200 (by decide)⟩

/-- C22: `rotate270` undoes `rotate90` and equals three applications of `rotate90`.  For
every bitmap of `w` by `h` pixels of `c` bytes and whatever the destination buffers hold:
`rotate270`, called with the dimensions `h`, `w` on the output of `rotate90`, gives back every
byte of the bitmap; and every byte of the bitmap `rotate270` produces is the byte three calls
of `rotate90` produce, the dimensions swapped on each call. -/
theorem rotate270_inverts_rotate90 (b d1 d2 d3 d4 : Mem) (w h c q : Nat)
    (hq : q < w * h * c) :
    rotate270 d2 (rotate90 d1 b w h c) h w c q = b q ∧
    rotate270 d4 b w h c q
      = rotate90 d3 (rotate90 d2 (rotate90 d1 b w h c) h w c) w h c q := by
  constructor
  · obtain ⟨r, k, z, hr, hk, hz, rfl⟩ := pixel_of_offset q w h c hq
    rw [(rotate270_closed d2 (rotate90 d1 b w h c) h w c).1 r k z hr hk hz,
      (rotate90_closed d1 b w h c).1 k (h - 1 - r) z hk (by omega) hz]
    have hr2 : h - 1 - (h - 1 - r) = r := by omega
    rw [hr2]
  · have hq2 : q < h * w * c := by rw [Nat.mul_comm h w]; exact hq
    obtain ⟨r, k, z, hr, hk, hz, rfl⟩ := pixel_of_offset q h w c hq2
    rw [(rotate270_closed d4 b w h c).1 r k z hr hk hz,
      (rotate90_closed d3 (rotate90 d2 (rotate90 d1 b w h c) h w c) w h c).1 r k z hr hk hz,
      rotate90_twice b d1 d2 w h c (h - 1 - k) r z (by omega) hr hz]
    have hk2 : h - 1 - (h - 1 - k) = k := by omega
    rw [hk2]

/-- C22 at a concrete input: a 3x2 bitmap of 2-byte pixels whose byte at offset `p` is
`p + 1`, byte 7. -/
theorem rotate270_inverts_rotate90_witness :
    rotate270 (fun _ => 0) (rotate90 (fun _ => 0) (fun p => p + 1) 3 2 2) 2 3 2 7
      = (fun p => p + 1) 7 ∧
    rotate270 (fun _ => 9) (fun p => p + 1) 3 2 2 7
      = rotate90 (fun _ => 0) (rotate90 (fun _ => 0)
          (rotate90 (fun _ => 0) (fun p => p + 1) 3 2 2) 2 3 2) 3 2 2 7 :=
  rotate270_inverts_rotate90 (fun p => p + 1) (fun _ => 0) (fun _ => 0) (fun _ => 0)
    (fun _ => 9) 3 2 2 7 (by decide)

end Jfbv
